import Mathlib

/-!
Verification of the WAVE (RIFF/WAVE) codec implemented in
`crates/blerp/src/wavefile.rs`.

The Rust code is shallow-embedded as executable Lean definitions:

* bytes are `Nat`s (always below 256 in every buffer we construct);
* Rust `u16`/`u32` arithmetic that can wrap is modelled with explicit
  `% 2^16` / `% 2^32` (release-mode wrapping semantics);
* Rust division / remainder by zero panics in both debug and release mode,
  so results carry an explicit `panic` outcome;
* the nom 7 parser combinators used by the decoder (`tag`, `take`,
  `le_u16`, `le_u32`, `length_data`, `length_value`, `all_consuming`,
  `opt`, `verify`, `map`, `map_res`, `consumed`, `alt`, `permutation`,
  `complete`, `preceded`, `terminated`, `tuple`) are each modelled with
  their nom 7 semantics, including the distinction between the
  recoverable-error outcome and the `Incomplete` outcome, and including
  the `ParseError` impl of `ReadError` in the source whose `append`
  method discards the accumulated error and returns the newer one.
-/

/-- Cursor into the input: the remaining bytes plus the absolute offset of
the first remaining byte, mirroring `nom_locate::LocatedSpan<&[u8]>`. -/
structure Input where
  bytes : List Nat
  offset : Nat
deriving DecidableEq, Repr

/-- `Format` from the source: the two supported `wFormatTag` values. -/
inductive Format where
  | PulseCodeModulation
  | FloatingPoint
deriving DecidableEq, Repr

/-- `wFormatTag` wire value of a `Format` (`Format as u16` in the source). -/
def Format.tagValue : Format → Nat
  | .PulseCodeModulation => 1
  | .FloatingPoint => 3

/-- The low-level `nom::error::ErrorKind` values reachable in this codec. -/
inductive ErrorKind where
  | Tag
  | Eof
  | Verify
  | MapRes
  | Permutation
  | Complete
deriving DecidableEq, Repr

/-- `ReadErrorKind` from the source. -/
inductive ReadErrorKind where
  | DataRateMismatch
  | ChannelCountMismatch
  | NoChannels
  | MissingFormatChunkExtensionSize
  | FormatNotSupported
  | MissingFactChunk
  | FactChunkLengthMismatch
  | DataSizeNotMultipleOfBlockSize
  | InvalidDataSize
  | Nom (kind : ErrorKind)
deriving DecidableEq, Repr

/-- `ReadError` from the source: an error kind plus the absolute byte
offset it is attributed to. -/
structure ReadError where
  kind : ReadErrorKind
  position : Nat
deriving DecidableEq, Repr

/-- `WaveFile` from the source.  In Rust `channels : NonZeroU16` and
`bytes_per_sample : u16`; theorems quantifying over every Rust value add
the corresponding range hypotheses. -/
structure WaveFile where
  format : Format
  channels : Nat
  sample_rate : Nat
  bytes_per_sample : Nat
  data : List Nat
deriving DecidableEq, Repr

/-- `FromSamplesError` from the source. -/
inductive FromSamplesError where
  | InequalChannelLength
  | TooManyChannels
deriving DecidableEq, Repr

/-- Outcome of one nom parser run.  `ok` is `IResult::Ok`, `err` is
`Err::Error`/`Err::Failure` (the codec never uses `cut`, so the two never
need to be distinguished), `incomplete` is `Err::Incomplete`, and `panic`
records a Rust panic (division or remainder by zero). -/
inductive PResult (α : Type) where
  | ok (rest : Input) (val : α)
  | err (e : ReadError)
  | incomplete
  | panic
deriving DecidableEq, Repr

/-- A parser in the shallow embedding. -/
def ParserM (α : Type) : Type := Input → PResult α

/-- Outcome of a pure Rust computation that can fail with a `ReadError`
(the closures given to `map_res`) or panic. -/
inductive Val (α : Type) where
  | ok (a : α)
  | err (e : ReadError)
  | panic
deriving DecidableEq, Repr

/-- Rust `u32` wrapping (release-mode) multiplication result reduction. -/
def wrap32 (n : Nat) : Nat := n % 4294967296

/-- Rust `u16` wrapping (release-mode) multiplication result reduction. -/
def wrap16 (n : Nat) : Nat := n % 65536

/-- Rust natural division: panics when the divisor is zero. -/
def rdiv (a b : Nat) : Val Nat := if b = 0 then .panic else .ok (a / b)

/-- Rust natural remainder: panics when the divisor is zero. -/
def rmod (a b : Nat) : Val Nat := if b = 0 then .panic else .ok (a % b)

/-- Little-endian two-byte encoding of a `u16` value. -/
def le16 (x : Nat) : List Nat := [x % 256, x / 256 % 256]

/-- Little-endian four-byte encoding of a `u32` value. -/
def le32 (x : Nat) : List Nat :=
  [x % 256, x / 256 % 256, x / 65536 % 256, x / 16777216 % 256]

/-- Sequencing of parsers (how nom's `tuple`, `preceded` and `terminated`
chain sub-parsers): run `p`, then feed its value to `q`. -/
def pand {α β : Type} (p : ParserM α) (q : α → ParserM β) : ParserM β :=
  fun inp =>
    match p inp with
    | .ok rest v => q v rest
    | .err e => .err e
    | .incomplete => .incomplete
    | .panic => .panic

/-- A parser that consumes nothing and returns `v`. -/
def ppure {α : Type} (v : α) : ParserM α := fun inp => .ok inp v

/-- `nom::bytes::complete::tag`: the input must start with `t`, otherwise
`Err::Error(ErrorKind::Tag)` at the current position (also when the input
is shorter than the tag). -/
def ptag (t : List Nat) : ParserM Unit := fun inp =>
  if inp.bytes.take t.length = t then
    .ok ⟨inp.bytes.drop t.length, inp.offset + t.length⟩ ()
  else
    .err ⟨.Nom .Tag, inp.offset⟩

/-- `nom::bytes::complete::take n`: `Err::Error(ErrorKind::Eof)` when
fewer than `n` bytes remain. -/
def ptake (n : Nat) : ParserM Input := fun inp =>
  if n ≤ inp.bytes.length then
    .ok ⟨inp.bytes.drop n, inp.offset + n⟩ ⟨inp.bytes.take n, inp.offset⟩
  else
    .err ⟨.Nom .Eof, inp.offset⟩

/-- `nom::number::complete::le_u16`: `Err::Error(ErrorKind::Eof)` when
fewer than two bytes remain. -/
def pleU16 : ParserM Nat := fun inp =>
  match inp.bytes with
  | b0 :: b1 :: rest => .ok ⟨rest, inp.offset + 2⟩ (b0 + 256 * b1)
  | _ => .err ⟨.Nom .Eof, inp.offset⟩

/-- `nom::number::complete::le_u32`: `Err::Error(ErrorKind::Eof)` when
fewer than four bytes remain. -/
def pleU32 : ParserM Nat := fun inp =>
  match inp.bytes with
  | b0 :: b1 :: b2 :: b3 :: rest =>
      .ok ⟨rest, inp.offset + 4⟩ (b0 + 256 * (b1 + 256 * (b2 + 256 * b3)))
  | _ => .err ⟨.Nom .Eof, inp.offset⟩

/-- `nom::multi::length_data f`: read a length with `f`, then return that
many bytes as a span; `Err::Incomplete` when fewer bytes remain. -/
def plengthData (f : ParserM Nat) : ParserM Input := fun inp =>
  match f inp with
  | .ok rest n =>
      if n ≤ rest.bytes.length then
        .ok ⟨rest.bytes.drop n, rest.offset + n⟩ ⟨rest.bytes.take n, rest.offset⟩
      else
        .incomplete
  | .err e => .err e
  | .incomplete => .incomplete
  | .panic => .panic

/-- `nom::multi::length_value f g`: read a length with `f`, split off that
many bytes, run `g` on them and discard whatever `g` leaves unread.
`Err::Incomplete` when the bytes are missing; an `Err::Incomplete` raised
by `g` becomes `Err::Error(ErrorKind::Complete)` at the sub-slice start. -/
def plengthValue {α : Type} (f : ParserM Nat) (g : ParserM α) : ParserM α :=
  fun inp =>
    match f inp with
    | .ok rest n =>
        if n ≤ rest.bytes.length then
          match g ⟨rest.bytes.take n, rest.offset⟩ with
          | .ok _ v => .ok ⟨rest.bytes.drop n, rest.offset + n⟩ v
          | .err e => .err e
          | .incomplete => .err ⟨.Nom .Complete, rest.offset⟩
          | .panic => .panic
        else
          .incomplete
    | .err e => .err e
    | .incomplete => .incomplete
    | .panic => .panic

/-- `nom::combinator::all_consuming`: fail with
`Err::Error(ErrorKind::Eof)` at the leftover position unless the inner
parser consumed everything. -/
def pallConsuming {α : Type} (p : ParserM α) : ParserM α := fun inp =>
  match p inp with
  | .ok rest v =>
      if rest.bytes.length = 0 then .ok rest v
      else .err ⟨.Nom .Eof, rest.offset⟩
  | .err e => .err e
  | .incomplete => .incomplete
  | .panic => .panic

/-- `nom::combinator::opt`: a recoverable error becomes `none` with no
input consumed; `Err::Incomplete` still propagates. -/
def popt {α : Type} (p : ParserM α) : ParserM (Option α) := fun inp =>
  match p inp with
  | .ok rest v => .ok rest (some v)
  | .err _ => .ok inp none
  | .incomplete => .incomplete
  | .panic => .panic

/-- `nom::combinator::verify`: run `p`, then fail with
`Err::Error(ErrorKind::Verify)` at the original position unless the
predicate holds. -/
def pverify {α : Type} (p : ParserM α) (pred : α → Bool) : ParserM α :=
  fun inp =>
    match p inp with
    | .ok rest v => if pred v then .ok rest v else .err ⟨.Nom .Verify, inp.offset⟩
    | .err e => .err e
    | .incomplete => .incomplete
    | .panic => .panic

/-- `nom::combinator::map`. -/
def pmap {α β : Type} (p : ParserM α) (f : α → β) : ParserM β := fun inp =>
  match p inp with
  | .ok rest v => .ok rest (f v)
  | .err e => .err e
  | .incomplete => .incomplete
  | .panic => .panic

/-- `nom::combinator::map_res` with the source's `FromExternalError` impl
for `ReadError`, which returns the external error itself unchanged. -/
def pmapRes {α β : Type} (p : ParserM α) (f : α → Val β) : ParserM β :=
  fun inp =>
    match p inp with
    | .ok rest v =>
        match f v with
        | .ok w => .ok rest w
        | .err e => .err e
        | .panic => .panic
    | .err e => .err e
    | .incomplete => .incomplete
    | .panic => .panic

/-- `nom::combinator::consumed`: also return the span of bytes the inner
parser consumed, positioned at the original offset. -/
def pconsumed {α : Type} (p : ParserM α) : ParserM (Input × α) := fun inp =>
  match p inp with
  | .ok rest v =>
      .ok rest (⟨inp.bytes.take (inp.bytes.length - rest.bytes.length), inp.offset⟩, v)
  | .err e => .err e
  | .incomplete => .incomplete
  | .panic => .panic

/-- `nom::branch::alt` over two alternatives.  On a recoverable error of
the first branch the second runs; if it errs too, the result is
`e1.or(e2)`, which is `e2` for the default `ParseError::or` that
`ReadError` inherits. -/
def palt2 {α : Type} (p q : ParserM α) : ParserM α := fun inp =>
  match p inp with
  | .err _ =>
      match q inp with
      | .err e2 => .err e2
      | r => r
  | r => r

/-- One stage of a pass of nom's `permutation` loop: skip an
already-satisfied parser, recurse into the whole loop on success, record
the newest recoverable error (`err.or(e)` is `e` for this `ParseError`
impl) and fall through to the next stage on failure. -/
def permStep {α δ : Type} (p : ParserM α) (r : Option α)
    (lastErr : Option ReadError) (inp : Input)
    (succeed : α → Input → PResult δ)
    (next : Option ReadError → PResult δ) : PResult δ :=
  match r with
  | some _ => next lastErr
  | none =>
      match p inp with
      | .ok rest v => succeed v rest
      | .err e => next (some e)
      | .incomplete => .incomplete
      | .panic => .panic

/-- One pass of nom's three-parser `permutation` loop: try each
not-yet-satisfied parser in order on the current input; the first success
restarts the loop via `recur`; if the pass ends with a recorded error the
permutation fails with `Error::append(input, Permutation, err)`, which is
`err` itself for the source's `ParseError` impl; a pass that ends with no
error means every parser succeeded earlier, so the collected values are
returned.  The impossible missing-value case mirrors the `unreachable!()`
in nom. -/
def perm3pass {α β γ : Type} (p1 : ParserM α) (p2 : ParserM β) (p3 : ParserM γ)
    (r1 : Option α) (r2 : Option β) (r3 : Option γ) (inp : Input)
    (recur : Option α → Option β → Option γ → Input → PResult (α × β × γ)) :
    PResult (α × β × γ) :=
  permStep p1 r1 none inp (fun v rest => recur (some v) r2 r3 rest) (fun le1 =>
    permStep p2 r2 le1 inp (fun v rest => recur r1 (some v) r3 rest) (fun le2 =>
      permStep p3 r3 le2 inp (fun v rest => recur r1 r2 (some v) rest) (fun le3 =>
        match le3 with
        | some e => .err e
        | none =>
            match r1, r2, r3 with
            | some v1, some v2, some v3 => .ok inp (v1, v2, v3)
            | _, _, _ => .panic)))

/-- The `permutation` loop with fuel.  Every recursive call fills exactly
one of the three slots, so starting from three empty slots at most four
passes ever run and the fuel-exhausted branch is unreachable. -/
def perm3go {α β γ : Type} (p1 : ParserM α) (p2 : ParserM β) (p3 : ParserM γ) :
    Nat → Option α → Option β → Option γ → Input → PResult (α × β × γ)
  | 0, _, _, _, inp => .err ⟨.Nom .Permutation, inp.offset⟩
  | fuel + 1, r1, r2, r3, inp =>
      perm3pass p1 p2 p3 r1 r2 r3 inp (perm3go p1 p2 p3 fuel)

/-- `nom::branch::permutation` over three parsers. -/
def pperm3 {α β γ : Type} (p1 : ParserM α) (p2 : ParserM β) (p3 : ParserM γ) :
    ParserM (α × β × γ) :=
  fun inp => perm3go p1 p2 p3 4 none none none inp

/-- The raw fields of the `fmt ` chunk, in source order, together with
the spans that `consumed` wraps around the format, channel-count and
byte-rate fields. -/
structure FormatChunkRaw where
  format_span : Input
  format : Nat
  channels_span : Input
  channels : Nat
  sample_rate : Nat
  bytes_per_second_span : Input
  bytes_per_second : Nat
  block_size : Nat
  bits_per_sample : Nat
  has_extension : Bool
deriving DecidableEq, Repr

/-- The validated result of the `fmt ` chunk: format, channels, sample
rate, block size and bits per sample, exactly the source's
`FormatChunk` tuple. -/
structure FormatChunk where
  format : Format
  channels : Nat
  sample_rate : Nat
  block_size : Nat
  bits_per_sample : Nat
deriving DecidableEq, Repr

/-- Body of the `tuple((consumed(le_u16), consumed(le_u16), le_u32,
consumed(le_u32), le_u16, le_u16, map(opt(tag(&0u16.to_le_bytes())),
|e| e.is_some())))` inside `format_chunk`. -/
def formatFields : ParserM FormatChunkRaw :=
  pand (pconsumed pleU16) (fun f =>
  pand (pconsumed pleU16) (fun c =>
  pand pleU32 (fun sr =>
  pand (pconsumed pleU32) (fun bps =>
  pand pleU16 (fun blk =>
  pand pleU16 (fun bits =>
  pand (pmap (popt (ptag [0, 0])) Option.isSome) (fun ext =>
  ppure ⟨f.1, f.2, c.1, c.2, sr, bps.1, bps.2, blk, bits, ext⟩)))))))

/-- The validation closure of `format_chunk` (source lines 268-305),
translated check for check.  `u32` multiplication wraps; the division
`block_size / (bits_per_sample / 8)` panics when `bits_per_sample < 8`. -/
def formatValidate (r : FormatChunkRaw) : Val FormatChunk :=
  if wrap32 (r.sample_rate * r.block_size) ≠ r.bytes_per_second then
    .err ⟨.DataRateMismatch, r.bytes_per_second_span.offset⟩
  else
    match rdiv r.block_size (r.bits_per_sample / 8) with
    | .panic => .panic
    | .err e => .err e
    | .ok q =>
        if r.channels ≠ q then
          .err ⟨.ChannelCountMismatch, r.channels_span.offset⟩
        else if r.channels = 0 then
          .err ⟨.NoChannels, r.channels_span.offset⟩
        else
          match r.format with
          | 1 =>
              .ok ⟨.PulseCodeModulation, r.channels, r.sample_rate, r.block_size, r.bits_per_sample⟩
          | 3 =>
              if !r.has_extension then
                .err ⟨.MissingFormatChunkExtensionSize, r.format_span.offset⟩
              else
                .ok ⟨.FloatingPoint, r.channels, r.sample_rate, r.block_size, r.bits_per_sample⟩
          | _ => .err ⟨.FormatNotSupported, r.format_span.offset⟩

/-- `format_chunk` from the source. -/
def format_chunk : ParserM FormatChunk :=
  pmapRes
    (pand (ptag [102, 109, 116, 32])
      (fun _ => plengthValue pleU32 (pallConsuming formatFields)))
    formatValidate

/-- `data_chunk` from the source: after the `data` tag, either a
length-prefixed span of even length, or a length-prefixed span followed
by a single skipped pad byte. -/
def data_chunk : ParserM Input :=
  pand (ptag [100, 97, 116, 97]) (fun _ =>
    palt2
      (pverify (plengthData pleU32) (fun d => d.bytes.length % 2 = 0))
      (pand (plengthData pleU32) (fun d =>
        pand (ptake 1) (fun _ => ppure d))))

/-- `fact_chunk` from the source: the 8-byte tag `fact\x04\0\0\0`
followed by the `consumed(le_u32)` sample count. -/
def fact_chunk : ParserM (Input × Nat) :=
  pand (ptag [102, 97, 99, 116, 4, 0, 0, 0]) (fun _ => pconsumed pleU32)

/-- The validation closure of `wave_file` (source lines 323-359).
`inputLen` is the length of the whole original input, captured by the
closure for the `MissingFactChunk` position.  Both divisions follow Rust
semantics (panic on a zero divisor), as does the remainder. -/
def waveValidate (inputLen : Nat)
    (t : FormatChunk × Input × Option (Input × Nat)) : Val WaveFile :=
  match t with
  | (f, data, samples_length) =>
      match samples_length with
      | some (span, s) =>
          match rdiv data.bytes.length (f.bits_per_sample / 8) with
          | .panic => .panic
          | .err e => .err e
          | .ok q =>
              if q ≠ s then
                .err ⟨.FactChunkLengthMismatch, span.offset⟩
              else
                match rdiv (f.block_size * s) f.channels with
                | .panic => .panic
                | .err e => .err e
                | .ok q2 =>
                    if data.bytes.length ≠ q2 then
                      .err ⟨.InvalidDataSize, data.offset⟩
                    else
                      .ok ⟨f.format, f.channels, f.sample_rate, f.bits_per_sample / 8, data.bytes⟩
      | none =>
          if f.format = Format.FloatingPoint then
            .err ⟨.MissingFactChunk, inputLen⟩
          else
            match rmod data.bytes.length f.block_size with
            | .panic => .panic
            | .err e => .err e
            | .ok m =>
                if m ≠ 0 then
                  .err ⟨.DataSizeNotMultipleOfBlockSize, data.offset⟩
                else
                  .ok ⟨f.format, f.channels, f.sample_rate, f.bits_per_sample / 8, data.bytes⟩

/-- The body of `wave_file` for a fixed captured input length `L` (the
source's validation closure captures `input` only to read its length). -/
def wave_body (L : Nat) : ParserM WaveFile :=
  pallConsuming
    (pmapRes
      (pand (ptag [82, 73, 70, 70]) (fun _ =>
        plengthValue pleU32
          (pand (ptag [87, 65, 86, 69]) (fun _ =>
            pperm3 format_chunk data_chunk (popt fact_chunk)))))
      (waveValidate L))

/-- `wave_file` from the source: the RIFF container, the `WAVE` form
tag, the three sub-chunks in any order, and the cross-chunk checks. -/
def wave_file : ParserM WaveFile := fun inp =>
  wave_body inp.bytes.length inp

/-- Outcome of `WaveFile::read`: success, a positioned error, or a Rust
panic (the divisions noted above). -/
inductive ReadOutcome where
  | ok (w : WaveFile)
  | err (e : ReadError)
  | panic
deriving DecidableEq, Repr

/-- Whether a read outcome is a success. -/
def ReadOutcome.isOk : ReadOutcome → Bool
  | .ok _ => true
  | _ => false

/-- `WaveFile::read` from the source: run `wave_file` in `complete` mode
from offset zero.  `complete` turns `Err::Incomplete` into
`Err::Error(ErrorKind::Complete)` at the start of the original input, so
the `unreachable_unchecked` branch of the source is never taken. -/
def WaveFile.read (bytes : List Nat) : ReadOutcome :=
  match wave_file ⟨bytes, 0⟩ with
  | .ok _ w => .ok w
  | .err e => .err e
  | .incomplete => .err ⟨.Nom .Complete, 0⟩
  | .panic => .panic

/-- Outcome of `WaveFile::write` against a sink that never fails: the
emitted bytes, the `DataTooLong` error, or a Rust panic (the division
`data.len() / bytes_per_sample` for the fact chunk panics when
`bytes_per_sample` is zero). -/
inductive WriteResult where
  | ok (bytes : List Nat)
  | dataTooLong
  | panic
deriving DecidableEq, Repr

/-- `WaveFile::write` from the source, serialised against an in-memory
sink.  `RIFF_DATA_LEN_PCM = 36` and `RIFF_DATA_LEN_FLOAT = 50`; each
`u32::try_from` failure is `DataTooLong`; the byte-rate and
bits-per-sample products use wrapping `u32`/`u16` multiplication. -/
def WaveFile.write (w : WaveFile) : WriteResult :=
  let riffDataLen := (if w.format = Format.FloatingPoint then 50 else 36) + w.data.length
  if riffDataLen ≥ 4294967296 then .dataTooLong else
  let header :=
    [82, 73, 70, 70] ++ le32 riffDataLen ++
    [87, 65, 86, 69, 102, 109, 116, 32] ++
    le32 (if w.format = Format.FloatingPoint then 18 else 16) ++
    le16 w.format.tagValue ++
    le16 w.channels ++
    le32 w.sample_rate ++
    le32 (wrap32 (w.sample_rate * w.channels * w.bytes_per_sample)) ++
    le16 w.bytes_per_sample ++
    le16 (wrap16 (w.bytes_per_sample * 8))
  if w.format = Format.FloatingPoint then
    if w.bytes_per_sample = 0 then .panic else
    let cnt := w.data.length / w.bytes_per_sample
    if cnt ≥ 4294967296 then .dataTooLong else
    if w.data.length ≥ 4294967296 then .dataTooLong else
    .ok (header ++ le16 0 ++ [102, 97, 99, 116] ++ le32 4 ++ le32 cnt ++
         [100, 97, 116, 97] ++ le32 w.data.length ++ w.data)
  else
    if w.data.length ≥ 4294967296 then .dataTooLong else
    .ok (header ++ [100, 97, 116, 97] ++ le32 w.data.length ++ w.data)

/-- The frame-interleaving loop of `from_samples` (source lines 153-162):
take the next sample of every channel; stop when every channel is
exhausted; fail with `InequalChannelLength` when only some are; otherwise
append the samples' bytes in channel order and continue.  Each pass
consumes one sample from every channel, so passes are bounded by any
channel's length plus one and the fuel-exhausted branch is unreachable
for the fuel `from_samples` supplies. -/
def interleaveGo : Nat → List (List (List Nat)) → List Nat →
    Except FromSamplesError (List Nat)
  | 0, _, acc => .ok acc
  | fuel + 1, chans, acc =>
      let heads := chans.map List.head?
      if heads.all Option.isNone then .ok acc
      else if heads.any Option.isNone then .error .InequalChannelLength
      else interleaveGo fuel (chans.map List.tail) (acc ++ (heads.filterMap id).flatten)

/-- `WaveFile::from_samples` from the source, abstracted over the sample
kind: `bps` is `size_of::<T>()`, `format` is `T::SAMPLE_FORMAT`, and
`conv` is the composition of `T::from_f64` and `to_le_bytes` (each
supported kind emits exactly `bps` bytes per sample).  The channel-count
guard at source line 150 maps both a zero count and a count above
`u16::MAX` to `FromSamplesError::InequalChannelLength`. -/
def WaveFile.from_samples {α : Type} (bps : Nat) (format : Format)
    (conv : α → List Nat) (channels : List (List α)) (sample_rate : Nat) :
    Except FromSamplesError WaveFile :=
  let chans := channels.map (fun ch => ch.map conv)
  if chans.length > 65535 ∨ chans.length = 0 then
    .error .InequalChannelLength
  else
    match interleaveGo (chans.foldr (fun c n => c.length + n) 0 + 1) chans [] with
    | .error e => .error e
    | .ok data => .ok ⟨format, chans.length, sample_rate, bps, data⟩

/-- Recompose a `u16` from its two little-endian bytes. -/
theorem le16_recompose {x : Nat} (hx : x < 65536) :
    x % 256 + 256 * (x / 256 % 256) = x := by omega

/-- Recompose a `u32` from its four little-endian bytes. -/
theorem le32_recompose {x : Nat} (hx : x < 4294967296) :
    x % 256 + 256 * (x / 256 % 256 + 256 * (x / 65536 % 256 + 256 * (x / 16777216 % 256))) = x := by
  omega

/-- The two-byte little-endian encoding has length two. -/
theorem le16_length (x : Nat) : (le16 x).length = 2 := rfl

/-- The four-byte little-endian encoding has length four. -/
theorem le32_length (x : Nat) : (le32 x).length = 4 := rfl

theorem pleU16_le16 {x : Nat} (hx : x < 65536) (r : List Nat) (i : Nat) :
    pleU16 ⟨le16 x ++ r, i⟩ = .ok ⟨r, i + 2⟩ x := by
  simp [pleU16, le16, le16_recompose hx]

theorem pleU32_le32 {x : Nat} (hx : x < 4294967296) (r : List Nat) (i : Nat) :
    pleU32 ⟨le32 x ++ r, i⟩ = .ok ⟨r, i + 4⟩ x := by
  simp [pleU32, le32, le32_recompose hx]

theorem pconsumedU16_le16 {x : Nat} (hx : x < 65536) (r : List Nat) (i : Nat) :
    pconsumed pleU16 ⟨le16 x ++ r, i⟩ = .ok ⟨r, i + 2⟩ (⟨le16 x, i⟩, x) := by
  have h2 : (le16 x ++ r).length - r.length = 2 := by simp [le16]; omega
  simp only [pconsumed, pleU16_le16 hx, h2]
  simp [le16]

theorem pconsumedU32_le32 {x : Nat} (hx : x < 4294967296) (r : List Nat) (i : Nat) :
    pconsumed pleU32 ⟨le32 x ++ r, i⟩ = .ok ⟨r, i + 4⟩ (⟨le32 x, i⟩, x) := by
  have h4 : (le32 x ++ r).length - r.length = 4 := by simp [le32]; omega
  simp only [pconsumed, pleU32_le32 hx, h4]
  simp [le32]

/-- The four tag bytes of the `fmt ` chunk. -/
def fmtTagBytes : List Nat := [102, 109, 116, 32]

/-- The four tag bytes of the `data` chunk. -/
def dataTagBytes : List Nat := [100, 97, 116, 97]

/-- The eight bytes `fact\x04\0\0\0` that open every well-formed `fact`
chunk. -/
def factTagBytes : List Nat := [102, 97, 99, 116, 4, 0, 0, 0]

/-- The field bytes of a `fmt ` chunk: format tag, channel count, sample
rate, byte rate, block align, bits per sample, and an optional two-byte
extension-size field. -/
def fmtPayload (ft ch rate br blk bits : Nat) (ext : Option Nat) : List Nat :=
  le16 ft ++ (le16 ch ++ (le32 rate ++ (le32 br ++ (le16 blk ++ (le16 bits ++
    (match ext with | none => [] | some v => le16 v))))))

/-- A whole `fmt ` chunk with declared size 16 (no extension field) or 18
(extension field present). -/
def mkFmt (ft ch rate br blk bits : Nat) (ext : Option Nat) : List Nat :=
  fmtTagBytes ++ (le32 (if ext.isSome then 18 else 16) ++ fmtPayload ft ch rate br blk bits ext)

/-- A `data` chunk whose declared size is the payload's exact length
(no pad byte; append one separately for the odd-length padded case). -/
def mkData (d : List Nat) : List Nat := dataTagBytes ++ (le32 d.length ++ d)

/-- A well-formed `fact` chunk with declared size 4 and sample count `s`. -/
def mkFact (s : Nat) : List Nat := factTagBytes ++ le32 s

/-- A RIFF/WAVE container around the given concatenated sub-chunks, with
the correct declared payload size. -/
def riffFile (chunks : List Nat) : List Nat :=
  [82, 73, 70, 70] ++ (le32 (4 + chunks.length) ++ ([87, 65, 86, 69] ++ chunks))

theorem fmtPayload_length (ft ch rate br blk bits : Nat) (ext : Option Nat) :
    (fmtPayload ft ch rate br blk bits ext).length = if ext.isSome then 18 else 16 := by
  rcases ext with _ | v <;> simp [fmtPayload, le16, le32]

theorem mkFmt_length (ft ch rate br blk bits : Nat) (ext : Option Nat) :
    (mkFmt ft ch rate br blk bits ext).length = if ext.isSome then 26 else 24 := by
  rcases ext with _ | v <;> simp [mkFmt, fmtPayload_length, fmtTagBytes, le32]

theorem mkData_length (d : List Nat) : (mkData d).length = 8 + d.length := by
  simp [mkData, dataTagBytes, le32]
  omega

theorem mkFact_length (s : Nat) : (mkFact s).length = 12 := by
  simp [mkFact, factTagBytes, le32]

/-- Lift a pure validation outcome to a parser outcome that leaves `rest`
at offset `o` on success. -/
def liftP {α : Type} (v : Val α) (rest : List Nat) (o : Nat) : PResult α :=
  match v with
  | .ok a => .ok ⟨rest, o⟩ a
  | .err e => .err e
  | .panic => .panic

/-- Lift the final validation outcome to a read outcome. -/
def liftR (v : Val WaveFile) : ReadOutcome :=
  match v with
  | .ok w => .ok w
  | .err e => .err e
  | .panic => .panic

/-- The `FormatChunkRaw` value produced by parsing
`fmtPayload ft ch rate br blk bits ext` at offset `i + 8` (so the chunk
itself starts at offset `i`). -/
def rawAt (ft ch rate br blk bits : Nat) (hasExt : Bool) (i : Nat) : FormatChunkRaw :=
  ⟨⟨le16 ft, i + 8⟩, ft, ⟨le16 ch, i + 10⟩, ch, rate, ⟨le32 br, i + 16⟩, br, blk, bits, hasExt⟩

theorem format_chunk_wrong_tag {l : List Nat} (i : Nat) (h : l.take 4 ≠ fmtTagBytes) :
    format_chunk ⟨l, i⟩ = .err ⟨.Nom .Tag, i⟩ := by
  rw [fmtTagBytes] at h
  simp [format_chunk, pmapRes, pand, ptag, fmtTagBytes, h]

theorem data_chunk_wrong_tag {l : List Nat} (i : Nat) (h : l.take 4 ≠ dataTagBytes) :
    data_chunk ⟨l, i⟩ = .err ⟨.Nom .Tag, i⟩ := by
  rw [dataTagBytes] at h
  simp [data_chunk, pand, ptag, dataTagBytes, h]

theorem fact_chunk_wrong_tag {l : List Nat} (i : Nat) (h : l.take 8 ≠ factTagBytes) :
    fact_chunk ⟨l, i⟩ = .err ⟨.Nom .Tag, i⟩ := by
  rw [factTagBytes] at h
  simp [fact_chunk, pand, ptag, factTagBytes, h]

/-- An eight-byte tag cannot match when the first four bytes already
differ. -/
theorem take8_ne {l t : List Nat} (h : l.take 4 ≠ t.take 4) : l.take 8 ≠ t := by
  intro he
  apply h
  rw [← he, List.take_take]
  norm_num

/-- Taking from the left list of an append when the left list is long
enough and its own take is known. -/
theorem take_of_append_take {l r t : List Nat} {n : Nat} (h : l.take n = t) (ht : t.length = n) :
    (l ++ r).take n = t := by
  have hl : n ≤ l.length := by
    have := congrArg List.length h
    simp [List.length_take] at this
    omega
  rw [List.take_append_of_le_length hl, h]

theorem format_chunk_mk16 {ft ch rate br blk bits : Nat}
    (hft : ft < 65536) (hch : ch < 65536) (hrate : rate < 4294967296)
    (hbr : br < 4294967296) (hblk : blk < 65536) (hbits : bits < 65536)
    (r : List Nat) (i : Nat) :
    format_chunk ⟨mkFmt ft ch rate br blk bits none ++ r, i⟩ =
      liftP (formatValidate (rawAt ft ch rate br blk bits false i)) r (i + 24) := by
  have h16 : (16 : Nat) < 4294967296 := by norm_num
  have hpl : (fmtPayload ft ch rate br blk bits none).length = 16 := by
    simp [fmtPayload_length]
  have htake : ((fmtPayload ft ch rate br blk bits none) ++ r).take 16 =
      fmtPayload ft ch rate br blk bits none := List.take_left' hpl
  have hdrop : ((fmtPayload ft ch rate br blk bits none) ++ r).drop 16 = r :=
    List.drop_left' hpl
  have hbits0 : pleU16 ⟨le16 bits, i + 22⟩ = .ok ⟨[], i + 24⟩ bits := by
    have h := pleU16_le16 hbits [] (i + 22)
    simpa [Nat.add_assoc] using h
  have hinner : pallConsuming formatFields ⟨fmtPayload ft ch rate br blk bits none, i + 8⟩ =
      .ok ⟨[], i + 24⟩ (rawAt ft ch rate br blk bits false i) := by
    simp [pallConsuming, formatFields, fmtPayload, pconsumedU16_le16 hft,
          pconsumedU16_le16 hch, pleU32_le32 hrate, pconsumedU32_le32 hbr, pleU16_le16 hblk,
          hbits0, popt, pmap, ppure, ptag, pand, rawAt, Nat.add_assoc]
  simp [format_chunk, pmapRes, pand, ptag, fmtTagBytes, mkFmt, plengthValue, hpl, htake, hdrop,
        pleU32_le32 h16, hinner, liftP, Nat.add_assoc, List.append_assoc]

theorem format_chunk_mk18 {ft ch rate br blk bits v : Nat}
    (hft : ft < 65536) (hch : ch < 65536) (hrate : rate < 4294967296)
    (hbr : br < 4294967296) (hblk : blk < 65536) (hbits : bits < 65536)
    (hv : v < 65536) (r : List Nat) (i : Nat) :
    format_chunk ⟨mkFmt ft ch rate br blk bits (some v) ++ r, i⟩ =
      if v = 0 then
        liftP (formatValidate (rawAt ft ch rate br blk bits true i)) r (i + 26)
      else
        .err ⟨.Nom .Eof, i + 24⟩ := by
  have h18 : (18 : Nat) < 4294967296 := by norm_num
  have hpl : (fmtPayload ft ch rate br blk bits (some v)).length = 18 := by
    simp [fmtPayload_length]
  have htake : ((fmtPayload ft ch rate br blk bits (some v)) ++ r).take 18 =
      fmtPayload ft ch rate br blk bits (some v) := List.take_left' hpl
  have hdrop : ((fmtPayload ft ch rate br blk bits (some v)) ++ r).drop 18 = r :=
    List.drop_left' hpl
  have hbits0 : pleU16 ⟨le16 bits ++ le16 v, i + 22⟩ = .ok ⟨le16 v, i + 24⟩ bits := by
    have h := pleU16_le16 hbits (le16 v) (i + 22)
    simpa [Nat.add_assoc] using h
  by_cases hzero : v = 0
  · subst hzero
    have htag0 : List.take 2 (le16 0) = [0, 0] := rfl
    have hdrop0 : List.drop 2 (le16 0) = [] := rfl
    have hinner : pallConsuming formatFields ⟨fmtPayload ft ch rate br blk bits (some 0), i + 8⟩ =
        .ok ⟨[], i + 26⟩ (rawAt ft ch rate br blk bits true i) := by
      simp [pallConsuming, formatFields, fmtPayload, pconsumedU16_le16 hft,
            pconsumedU16_le16 hch, pleU32_le32 hrate, pconsumedU32_le32 hbr, pleU16_le16 hblk,
            hbits0, popt, pmap, ppure, ptag, pand, rawAt, htag0, hdrop0, Nat.add_assoc]
    simp [format_chunk, pmapRes, pand, ptag, fmtTagBytes, mkFmt, plengthValue, hpl, htake, hdrop,
          pleU32_le32 h18, hinner, liftP, Nat.add_assoc, List.append_assoc]
  · have hne : ¬ (v % 256 = 0 ∧ v / 256 % 256 = 0) := by omega
    have htakev : List.take 2 (le16 v) = [v % 256, v / 256 % 256] := rfl
    have hinner : pallConsuming formatFields ⟨fmtPayload ft ch rate br blk bits (some v), i + 8⟩ =
        .err ⟨.Nom .Eof, i + 24⟩ := by
      simp [pallConsuming, formatFields, fmtPayload, pconsumedU16_le16 hft,
            pconsumedU16_le16 hch, pleU32_le32 hrate, pconsumedU32_le32 hbr, pleU16_le16 hblk,
            hbits0, popt, pmap, ppure, ptag, pand, htakev, le16_length, hne, Nat.add_assoc]
    simp [format_chunk, pmapRes, pand, ptag, fmtTagBytes, mkFmt, plengthValue, hpl, htake, hdrop,
          pleU32_le32 h18, hinner, liftP, hzero, Nat.add_assoc, List.append_assoc]

theorem data_chunk_mk_even {d : List Nat} (hn : d.length < 4294967296)
    (he : d.length % 2 = 0) (r : List Nat) (i : Nat) :
    data_chunk ⟨mkData d ++ r, i⟩ = .ok ⟨r, i + (8 + d.length)⟩ ⟨d, i + 8⟩ := by
  simp [data_chunk, pand, ptag, dataTagBytes, mkData, palt2, pverify, plengthData,
        pleU32_le32 hn, List.take_left, List.drop_left, he, List.append_assoc, Nat.add_assoc]

theorem data_chunk_mk_odd_pad {d : List Nat} (hn : d.length < 4294967296)
    (ho : d.length % 2 = 1) (p : Nat) (r : List Nat) (i : Nat) :
    data_chunk ⟨mkData d ++ (p :: r), i⟩ = .ok ⟨r, i + (9 + d.length)⟩ ⟨d, i + 8⟩ := by
  simp [data_chunk, pand, ptag, dataTagBytes, mkData, palt2, pverify, plengthData, ptake, ppure,
        pleU32_le32 hn, List.take_left, List.drop_left, ho, List.append_assoc, Nat.add_assoc]
  omega

theorem data_chunk_mk_odd_end {d : List Nat} (hn : d.length < 4294967296)
    (ho : d.length % 2 = 1) (i : Nat) :
    data_chunk ⟨mkData d, i⟩ = .err ⟨.Nom .Eof, i + (8 + d.length)⟩ := by
  simp [data_chunk, pand, ptag, dataTagBytes, mkData, palt2, pverify, plengthData, ptake, ppure,
        pleU32_le32 hn, ho, List.append_assoc, Nat.add_assoc]

theorem fact_chunk_mk {s : Nat} (hs : s < 4294967296) (r : List Nat) (i : Nat) :
    fact_chunk ⟨mkFact s ++ r, i⟩ = .ok ⟨r, i + 12⟩ (⟨le32 s, i + 8⟩, s) := by
  simp [fact_chunk, pand, ptag, factTagBytes, mkFact, pconsumedU32_le32 hs,
        List.append_assoc, Nat.add_assoc]

/-- Reduce `WaveFile::read` on a well-sized RIFF/WAVE container to the
permutation phase over the concatenated sub-chunks followed by the
cross-chunk validation. -/
theorem read_riffFile (C : List Nat) (hlen : 4 + C.length < 4294967296) :
    WaveFile.read (riffFile C) =
      match pperm3 format_chunk data_chunk (popt fact_chunk) ⟨C, 12⟩ with
      | .ok _ t => liftR (waveValidate (riffFile C).length t)
      | .err e => .err e
      | .incomplete => .err ⟨.Nom .Complete, 8⟩
      | .panic => .panic := by
  simp only [WaveFile.read, wave_file]
  generalize (riffFile C).length = L
  have hc : 4 + C.length ≤ C.length + 4 := by omega
  have ht4 : List.take (4 + C.length) (87 :: 65 :: 86 :: 69 :: C) = 87 :: 65 :: 86 :: 69 :: C :=
    List.take_of_length_le (by simp; omega)
  have hd4 : List.drop (4 + C.length) (87 :: 65 :: 86 :: 69 :: C) = [] :=
    List.drop_of_length_le (by simp; omega)
  cases hP : pperm3 format_chunk data_chunk (popt fact_chunk) ⟨C, 12⟩ with
  | ok rest t =>
    cases hv : waveValidate L t with
    | ok w =>
      simp [wave_body, pallConsuming, pmapRes, pand, ptag, plengthValue,
            riffFile, pleU32_le32 hlen, hc, ht4, hd4, hP, hv, liftR, Nat.add_assoc]
    | err e2 =>
      simp [wave_body, pallConsuming, pmapRes, pand, ptag, plengthValue,
            riffFile, pleU32_le32 hlen, hc, ht4, hd4, hP, hv, liftR, Nat.add_assoc]
    | panic =>
      simp [wave_body, pallConsuming, pmapRes, pand, ptag, plengthValue,
            riffFile, pleU32_le32 hlen, hc, ht4, hd4, hP, hv, liftR, Nat.add_assoc]
  | err e =>
    simp [wave_body, pallConsuming, pmapRes, pand, ptag, plengthValue,
          riffFile, pleU32_le32 hlen, hc, ht4, hd4, hP, Nat.add_assoc]
  | incomplete =>
    simp [wave_body, pallConsuming, pmapRes, pand, ptag, plengthValue,
          riffFile, pleU32_le32 hlen, hc, ht4, hd4, hP, Nat.add_assoc]
  | panic =>
    simp [wave_body, pallConsuming, pmapRes, pand, ptag, plengthValue,
          riffFile, pleU32_le32 hlen, hc, ht4, hd4, hP, Nat.add_assoc]

theorem perm3go_4 {α β γ : Type} (p1 : ParserM α) (p2 : ParserM β) (p3 : ParserM γ)
    (r1 : Option α) (r2 : Option β) (r3 : Option γ) (inp : Input) :
    perm3go p1 p2 p3 4 r1 r2 r3 inp = perm3pass p1 p2 p3 r1 r2 r3 inp (perm3go p1 p2 p3 3) := rfl

theorem perm3go_3 {α β γ : Type} (p1 : ParserM α) (p2 : ParserM β) (p3 : ParserM γ)
    (r1 : Option α) (r2 : Option β) (r3 : Option γ) (inp : Input) :
    perm3go p1 p2 p3 3 r1 r2 r3 inp = perm3pass p1 p2 p3 r1 r2 r3 inp (perm3go p1 p2 p3 2) := rfl

theorem perm3go_2 {α β γ : Type} (p1 : ParserM α) (p2 : ParserM β) (p3 : ParserM γ)
    (r1 : Option α) (r2 : Option β) (r3 : Option γ) (inp : Input) :
    perm3go p1 p2 p3 2 r1 r2 r3 inp = perm3pass p1 p2 p3 r1 r2 r3 inp (perm3go p1 p2 p3 1) := rfl

theorem perm3go_1 {α β γ : Type} (p1 : ParserM α) (p2 : ParserM β) (p3 : ParserM γ)
    (r1 : Option α) (r2 : Option β) (r3 : Option γ) (inp : Input) :
    perm3go p1 p2 p3 1 r1 r2 r3 inp = perm3pass p1 p2 p3 r1 r2 r3 inp (perm3go p1 p2 p3 0) := rfl

/-- Shape of a permutation-phase outcome as a function of the `fmt `
chunk outcome `fv`: on success all three slot values are collected; a
`fmt ` validation error surfaces as `eOut e` (either the error itself or
the tag error of the last parser tried, depending on the chunk order); a
panic propagates. -/
def permOut3 (fv : Val FormatChunk) (eOut : ReadError → ReadError) (restOfs : Nat)
    (dsp : Input) (fo : Option (Input × Nat)) :
    PResult (FormatChunk × Input × Option (Input × Nat)) :=
  match fv with
  | .ok v => .ok ⟨[], restOfs⟩ (v, dsp, fo)
  | .err e => .err (eOut e)
  | .panic => .panic

/-- Shape of a whole-file read outcome as a function of the `fmt ` chunk
outcome. -/
def readOut (fv : Val FormatChunk) (eOut : ReadError → ReadError) (L : Nat)
    (dsp : Input) (fo : Option (Input × Nat)) : ReadOutcome :=
  match fv with
  | .ok v => liftR (waveValidate L (v, dsp, fo))
  | .err e => .err (eOut e)
  | .panic => .panic

/-- Permutation phase for chunk order `fmt `, `data`, `fact`. -/
theorem perm_FDK {F D K : List Nat} {fv : Val FormatChunk} {dsp : Input} {ksp : Input × Nat}
    (hF : ∀ r, format_chunk ⟨F ++ r, 12⟩ = liftP fv r (12 + F.length))
    (hD : ∀ r, data_chunk ⟨D ++ r, 12 + F.length⟩ = .ok ⟨r, 12 + F.length + D.length⟩ dsp)
    (hK : ∀ r, fact_chunk ⟨K ++ r, 12 + F.length + D.length⟩ =
        .ok ⟨r, 12 + F.length + D.length + K.length⟩ ksp)
    (hFt : F.take 4 = fmtTagBytes) :
    pperm3 format_chunk data_chunk (popt fact_chunk) ⟨F ++ (D ++ K), 12⟩ =
      permOut3 fv (fun _ => ⟨.Nom .Tag, 12⟩) (12 + F.length + D.length + K.length)
        dsp (some ksp) := by
  have hDerr : data_chunk ⟨F ++ (D ++ K), 12⟩ = .err ⟨.Nom .Tag, 12⟩ :=
    data_chunk_wrong_tag _ (by rw [take_of_append_take hFt rfl]; decide)
  have hKerr : fact_chunk ⟨F ++ (D ++ K), 12⟩ = .err ⟨.Nom .Tag, 12⟩ :=
    fact_chunk_wrong_tag _ (take8_ne (by rw [take_of_append_take hFt rfl]; decide))
  have hK0 : fact_chunk ⟨K, 12 + F.length + D.length⟩ =
      .ok ⟨[], 12 + F.length + D.length + K.length⟩ ksp := by simpa using hK []
  cases fv with
  | ok v =>
    simp [pperm3, perm3go_4, perm3go_3, perm3go_2, perm3go_1, perm3pass, permStep, permOut3,
          hF, hD, hK0, hDerr, hKerr, popt, liftP]
  | err e =>
    simp [pperm3, perm3go_4, perm3go_3, perm3go_2, perm3go_1, perm3pass, permStep, permOut3,
          hF, hD, hK0, hDerr, hKerr, popt, liftP]
  | panic =>
    simp [pperm3, perm3go_4, perm3go_3, perm3go_2, perm3go_1, perm3pass, permStep, permOut3,
          hF, hD, hK0, hDerr, hKerr, popt, liftP]

/-- Permutation phase for chunk order `fmt `, `fact`, `data`. -/
theorem perm_FKD {F K D : List Nat} {fv : Val FormatChunk} {dsp : Input} {ksp : Input × Nat}
    (hF : ∀ r, format_chunk ⟨F ++ r, 12⟩ = liftP fv r (12 + F.length))
    (hK : ∀ r, fact_chunk ⟨K ++ r, 12 + F.length⟩ = .ok ⟨r, 12 + F.length + K.length⟩ ksp)
    (hD : ∀ r, data_chunk ⟨D ++ r, 12 + F.length + K.length⟩ =
        .ok ⟨r, 12 + F.length + K.length + D.length⟩ dsp)
    (hFt : F.take 4 = fmtTagBytes)
    (hKt : K.take 4 = [102, 97, 99, 116]) :
    pperm3 format_chunk data_chunk (popt fact_chunk) ⟨F ++ (K ++ D), 12⟩ =
      permOut3 fv (fun _ => ⟨.Nom .Tag, 12⟩) (12 + F.length + K.length + D.length)
        dsp (some ksp) := by
  have hDerr : data_chunk ⟨F ++ (K ++ D), 12⟩ = .err ⟨.Nom .Tag, 12⟩ :=
    data_chunk_wrong_tag _ (by rw [take_of_append_take hFt rfl]; decide)
  have hKerr : fact_chunk ⟨F ++ (K ++ D), 12⟩ = .err ⟨.Nom .Tag, 12⟩ :=
    fact_chunk_wrong_tag _ (take8_ne (by rw [take_of_append_take hFt rfl]; decide))
  have hDerr2 : data_chunk ⟨K ++ D, 12 + F.length⟩ = .err ⟨.Nom .Tag, 12 + F.length⟩ :=
    data_chunk_wrong_tag _ (by rw [take_of_append_take hKt rfl]; decide)
  have hD0 : data_chunk ⟨D, 12 + F.length + K.length⟩ =
      .ok ⟨[], 12 + F.length + K.length + D.length⟩ dsp := by simpa using hD []
  cases fv with
  | ok v =>
    simp [pperm3, perm3go_4, perm3go_3, perm3go_2, perm3go_1, perm3pass, permStep, permOut3,
          hF, hK, hD0, hDerr, hKerr, hDerr2, popt, liftP]
  | err e =>
    simp [pperm3, perm3go_4, perm3go_3, perm3go_2, perm3go_1, perm3pass, permStep, permOut3,
          hF, hK, hD0, hDerr, hKerr, hDerr2, popt, liftP]
  | panic =>
    simp [pperm3, perm3go_4, perm3go_3, perm3go_2, perm3go_1, perm3pass, permStep, permOut3,
          hF, hK, hD0, hDerr, hKerr, hDerr2, popt, liftP]

/-- Permutation phase for chunk order `data`, `fmt `, `fact`. -/
theorem perm_DFK {D F K : List Nat} {fv : Val FormatChunk} {dsp : Input} {ksp : Input × Nat}
    (hD : ∀ r, data_chunk ⟨D ++ r, 12⟩ = .ok ⟨r, 12 + D.length⟩ dsp)
    (hF : ∀ r, format_chunk ⟨F ++ r, 12 + D.length⟩ = liftP fv r (12 + D.length + F.length))
    (hK : ∀ r, fact_chunk ⟨K ++ r, 12 + D.length + F.length⟩ =
        .ok ⟨r, 12 + D.length + F.length + K.length⟩ ksp)
    (hDt : D.take 4 = dataTagBytes)
    (hFt : F.take 4 = fmtTagBytes) :
    pperm3 format_chunk data_chunk (popt fact_chunk) ⟨D ++ (F ++ K), 12⟩ =
      permOut3 fv (fun e => e) (12 + D.length + F.length + K.length) dsp (some ksp) := by
  have hFerr : format_chunk ⟨D ++ (F ++ K), 12⟩ = .err ⟨.Nom .Tag, 12⟩ :=
    format_chunk_wrong_tag _ (by rw [take_of_append_take hDt rfl]; decide)
  have hKerr : fact_chunk ⟨F ++ K, 12 + D.length⟩ = .err ⟨.Nom .Tag, 12 + D.length⟩ :=
    fact_chunk_wrong_tag _ (take8_ne (by rw [take_of_append_take hFt rfl]; decide))
  have hK0 : fact_chunk ⟨K, 12 + D.length + F.length⟩ =
      .ok ⟨[], 12 + D.length + F.length + K.length⟩ ksp := by simpa using hK []
  cases fv with
  | ok v =>
    simp [pperm3, perm3go_4, perm3go_3, perm3go_2, perm3go_1, perm3pass, permStep, permOut3,
          hD, hF, hK0, hFerr, hKerr, popt, liftP]
  | err e =>
    simp [pperm3, perm3go_4, perm3go_3, perm3go_2, perm3go_1, perm3pass, permStep, permOut3,
          hD, hF, hK0, hFerr, hKerr, popt, liftP]
  | panic =>
    simp [pperm3, perm3go_4, perm3go_3, perm3go_2, perm3go_1, perm3pass, permStep, permOut3,
          hD, hF, hK0, hFerr, hKerr, popt, liftP]

/-- Permutation phase for chunk order `data`, `fact`, `fmt `. -/
theorem perm_DKF {D K F : List Nat} {fv : Val FormatChunk} {dsp : Input} {ksp : Input × Nat}
    (hD : ∀ r, data_chunk ⟨D ++ r, 12⟩ = .ok ⟨r, 12 + D.length⟩ dsp)
    (hK : ∀ r, fact_chunk ⟨K ++ r, 12 + D.length⟩ = .ok ⟨r, 12 + D.length + K.length⟩ ksp)
    (hF : ∀ r, format_chunk ⟨F ++ r, 12 + D.length + K.length⟩ =
        liftP fv r (12 + D.length + K.length + F.length))
    (hDt : D.take 4 = dataTagBytes)
    (hKt : K.take 4 = [102, 97, 99, 116]) :
    pperm3 format_chunk data_chunk (popt fact_chunk) ⟨D ++ (K ++ F), 12⟩ =
      permOut3 fv (fun e => e) (12 + D.length + K.length + F.length) dsp (some ksp) := by
  have hFerr : format_chunk ⟨D ++ (K ++ F), 12⟩ = .err ⟨.Nom .Tag, 12⟩ :=
    format_chunk_wrong_tag _ (by rw [take_of_append_take hDt rfl]; decide)
  have hFerr2 : format_chunk ⟨K ++ F, 12 + D.length⟩ = .err ⟨.Nom .Tag, 12 + D.length⟩ :=
    format_chunk_wrong_tag _ (by rw [take_of_append_take hKt rfl]; decide)
  have hF0 : format_chunk ⟨F, 12 + D.length + K.length⟩ =
      liftP fv [] (12 + D.length + K.length + F.length) := by simpa using hF []
  cases fv with
  | ok v =>
    simp [pperm3, perm3go_4, perm3go_3, perm3go_2, perm3go_1, perm3pass, permStep, permOut3,
          hD, hK, hF0, hFerr, hFerr2, popt, liftP]
  | err e =>
    simp [pperm3, perm3go_4, perm3go_3, perm3go_2, perm3go_1, perm3pass, permStep, permOut3,
          hD, hK, hF0, hFerr, hFerr2, popt, liftP]
  | panic =>
    simp [pperm3, perm3go_4, perm3go_3, perm3go_2, perm3go_1, perm3pass, permStep, permOut3,
          hD, hK, hF0, hFerr, hFerr2, popt, liftP]

/-- Permutation phase for chunk order `fact`, `fmt `, `data`. -/
theorem perm_KFD {K F D : List Nat} {fv : Val FormatChunk} {dsp : Input} {ksp : Input × Nat}
    (hK : ∀ r, fact_chunk ⟨K ++ r, 12⟩ = .ok ⟨r, 12 + K.length⟩ ksp)
    (hF : ∀ r, format_chunk ⟨F ++ r, 12 + K.length⟩ = liftP fv r (12 + K.length + F.length))
    (hD : ∀ r, data_chunk ⟨D ++ r, 12 + K.length + F.length⟩ =
        .ok ⟨r, 12 + K.length + F.length + D.length⟩ dsp)
    (hKt : K.take 4 = [102, 97, 99, 116])
    (hFt : F.take 4 = fmtTagBytes) :
    pperm3 format_chunk data_chunk (popt fact_chunk) ⟨K ++ (F ++ D), 12⟩ =
      permOut3 fv (fun _ => ⟨.Nom .Tag, 12 + K.length⟩) (12 + K.length + F.length + D.length)
        dsp (some ksp) := by
  have hFerr : format_chunk ⟨K ++ (F ++ D), 12⟩ = .err ⟨.Nom .Tag, 12⟩ :=
    format_chunk_wrong_tag _ (by rw [take_of_append_take hKt rfl]; decide)
  have hDerr : data_chunk ⟨K ++ (F ++ D), 12⟩ = .err ⟨.Nom .Tag, 12⟩ :=
    data_chunk_wrong_tag _ (by rw [take_of_append_take hKt rfl]; decide)
  have hDerr2 : data_chunk ⟨F ++ D, 12 + K.length⟩ = .err ⟨.Nom .Tag, 12 + K.length⟩ :=
    data_chunk_wrong_tag _ (by rw [take_of_append_take hFt rfl]; decide)
  have hD0 : data_chunk ⟨D, 12 + K.length + F.length⟩ =
      .ok ⟨[], 12 + K.length + F.length + D.length⟩ dsp := by simpa using hD []
  cases fv with
  | ok v =>
    simp [pperm3, perm3go_4, perm3go_3, perm3go_2, perm3go_1, perm3pass, permStep, permOut3,
          hK, hF, hD0, hFerr, hDerr, hDerr2, popt, liftP]
  | err e =>
    simp [pperm3, perm3go_4, perm3go_3, perm3go_2, perm3go_1, perm3pass, permStep, permOut3,
          hK, hF, hD0, hFerr, hDerr, hDerr2, popt, liftP]
  | panic =>
    simp [pperm3, perm3go_4, perm3go_3, perm3go_2, perm3go_1, perm3pass, permStep, permOut3,
          hK, hF, hD0, hFerr, hDerr, hDerr2, popt, liftP]

/-- Permutation phase for chunk order `fact`, `data`, `fmt `. -/
theorem perm_KDF {K D F : List Nat} {fv : Val FormatChunk} {dsp : Input} {ksp : Input × Nat}
    (hK : ∀ r, fact_chunk ⟨K ++ r, 12⟩ = .ok ⟨r, 12 + K.length⟩ ksp)
    (hD : ∀ r, data_chunk ⟨D ++ r, 12 + K.length⟩ = .ok ⟨r, 12 + K.length + D.length⟩ dsp)
    (hF : ∀ r, format_chunk ⟨F ++ r, 12 + K.length + D.length⟩ =
        liftP fv r (12 + K.length + D.length + F.length))
    (hKt : K.take 4 = [102, 97, 99, 116])
    (hDt : D.take 4 = dataTagBytes) :
    pperm3 format_chunk data_chunk (popt fact_chunk) ⟨K ++ (D ++ F), 12⟩ =
      permOut3 fv (fun e => e) (12 + K.length + D.length + F.length) dsp (some ksp) := by
  have hFerr : format_chunk ⟨K ++ (D ++ F), 12⟩ = .err ⟨.Nom .Tag, 12⟩ :=
    format_chunk_wrong_tag _ (by rw [take_of_append_take hKt rfl]; decide)
  have hDerr : data_chunk ⟨K ++ (D ++ F), 12⟩ = .err ⟨.Nom .Tag, 12⟩ :=
    data_chunk_wrong_tag _ (by rw [take_of_append_take hKt rfl]; decide)
  have hFerr2 : format_chunk ⟨D ++ F, 12 + K.length⟩ = .err ⟨.Nom .Tag, 12 + K.length⟩ :=
    format_chunk_wrong_tag _ (by rw [take_of_append_take hDt rfl]; decide)
  have hF0 : format_chunk ⟨F, 12 + K.length + D.length⟩ =
      liftP fv [] (12 + K.length + D.length + F.length) := by simpa using hF []
  cases fv with
  | ok v =>
    simp [pperm3, perm3go_4, perm3go_3, perm3go_2, perm3go_1, perm3pass, permStep, permOut3,
          hK, hD, hF0, hFerr, hDerr, hFerr2, popt, liftP]
  | err e =>
    simp [pperm3, perm3go_4, perm3go_3, perm3go_2, perm3go_1, perm3pass, permStep, permOut3,
          hK, hD, hF0, hFerr, hDerr, hFerr2, popt, liftP]
  | panic =>
    simp [pperm3, perm3go_4, perm3go_3, perm3go_2, perm3go_1, perm3pass, permStep, permOut3,
          hK, hD, hF0, hFerr, hDerr, hFerr2, popt, liftP]

/-- Permutation phase for chunk order `fmt `, `data` with no `fact`
chunk: a failing `fmt ` chunk is reported as the `data` parser's tag
error at the position of the first chunk. -/
theorem perm_FD {F D : List Nat} {fv : Val FormatChunk} {dsp : Input}
    (hF : ∀ r, format_chunk ⟨F ++ r, 12⟩ = liftP fv r (12 + F.length))
    (hD : ∀ r, data_chunk ⟨D ++ r, 12 + F.length⟩ = .ok ⟨r, 12 + F.length + D.length⟩ dsp)
    (hFt : F.take 4 = fmtTagBytes) :
    pperm3 format_chunk data_chunk (popt fact_chunk) ⟨F ++ D, 12⟩ =
      permOut3 fv (fun _ => ⟨.Nom .Tag, 12⟩) (12 + F.length + D.length) dsp none := by
  have hDerr : data_chunk ⟨F ++ D, 12⟩ = .err ⟨.Nom .Tag, 12⟩ :=
    data_chunk_wrong_tag _ (by rw [take_of_append_take hFt rfl]; decide)
  have hKerr : fact_chunk ⟨F ++ D, 12⟩ = .err ⟨.Nom .Tag, 12⟩ :=
    fact_chunk_wrong_tag _ (take8_ne (by rw [take_of_append_take hFt rfl]; decide))
  have hKempty : fact_chunk ⟨[], 12 + F.length + D.length⟩ =
      .err ⟨.Nom .Tag, 12 + F.length + D.length⟩ :=
    fact_chunk_wrong_tag _ (by decide)
  have hD0 : data_chunk ⟨D, 12 + F.length⟩ = .ok ⟨[], 12 + F.length + D.length⟩ dsp := by
    simpa using hD []
  cases fv with
  | ok v =>
    simp [pperm3, perm3go_4, perm3go_3, perm3go_2, perm3go_1, perm3pass, permStep, permOut3,
          hF, hD0, hDerr, hKerr, hKempty, popt, liftP]
  | err e =>
    simp [pperm3, perm3go_4, perm3go_3, perm3go_2, perm3go_1, perm3pass, permStep, permOut3,
          hF, hD0, hDerr, hKerr, hKempty, popt, liftP]
  | panic =>
    simp [pperm3, perm3go_4, perm3go_3, perm3go_2, perm3go_1, perm3pass, permStep, permOut3,
          hF, hD0, hDerr, hKerr, hKempty, popt, liftP]

/-- Permutation phase for chunk order `data`, `fmt ` with no `fact`
chunk: a failing `fmt ` chunk's own error is surfaced. -/
theorem perm_DF {D F : List Nat} {fv : Val FormatChunk} {dsp : Input}
    (hD : ∀ r, data_chunk ⟨D ++ r, 12⟩ = .ok ⟨r, 12 + D.length⟩ dsp)
    (hF : ∀ r, format_chunk ⟨F ++ r, 12 + D.length⟩ = liftP fv r (12 + D.length + F.length))
    (hDt : D.take 4 = dataTagBytes)
    (hFt : F.take 4 = fmtTagBytes) :
    pperm3 format_chunk data_chunk (popt fact_chunk) ⟨D ++ F, 12⟩ =
      permOut3 fv (fun e => e) (12 + D.length + F.length) dsp none := by
  have hFerr : format_chunk ⟨D ++ F, 12⟩ = .err ⟨.Nom .Tag, 12⟩ :=
    format_chunk_wrong_tag _ (by rw [take_of_append_take hDt rfl]; decide)
  have hKerr : fact_chunk ⟨F, 12 + D.length⟩ = .err ⟨.Nom .Tag, 12 + D.length⟩ :=
    fact_chunk_wrong_tag _ (take8_ne (by rw [hFt]; decide))
  have hKempty : fact_chunk ⟨[], 12 + D.length + F.length⟩ =
      .err ⟨.Nom .Tag, 12 + D.length + F.length⟩ :=
    fact_chunk_wrong_tag _ (by decide)
  have hF0 : format_chunk ⟨F, 12 + D.length⟩ = liftP fv [] (12 + D.length + F.length) := by
    simpa using hF []
  cases fv with
  | ok v =>
    simp [pperm3, perm3go_4, perm3go_3, perm3go_2, perm3go_1, perm3pass, permStep, permOut3,
          hD, hF0, hFerr, hKerr, hKempty, popt, liftP]
  | err e =>
    simp [pperm3, perm3go_4, perm3go_3, perm3go_2, perm3go_1, perm3pass, permStep, permOut3,
          hD, hF0, hFerr, hKerr, hKempty, popt, liftP]
  | panic =>
    simp [pperm3, perm3go_4, perm3go_3, perm3go_2, perm3go_1, perm3pass, permStep, permOut3,
          hD, hF0, hFerr, hKerr, hKempty, popt, liftP]

/-- Exact characterisation of a successful `fmt ` chunk validation. -/
theorem formatValidate_rawAt_ok_iff {ft ch rate br blk bits : Nat} {hasExt : Bool} {i : Nat}
    {v : FormatChunk} :
    formatValidate (rawAt ft ch rate br blk bits hasExt i) = .ok v ↔
      (wrap32 (rate * blk) = br ∧ bits / 8 ≠ 0 ∧ ch = blk / (bits / 8) ∧ ch ≠ 0 ∧
       ((ft = 1 ∧ v = ⟨.PulseCodeModulation, ch, rate, blk, bits⟩) ∨
        (ft = 3 ∧ hasExt = true ∧ v = ⟨.FloatingPoint, ch, rate, blk, bits⟩))) := by
  by_cases h1 : wrap32 (rate * blk) = br
  · by_cases h2 : bits / 8 = 0
    · simp [formatValidate, rawAt, rdiv, h1, h2]
    · by_cases h3 : ch = blk / (bits / 8)
      · by_cases h4 : ch = 0
        · simp [formatValidate, rawAt, rdiv, h1, h2, ← h3, h4]
        · match hft : ft with
          | 1 =>
            simp [formatValidate, rawAt, rdiv, h1, h2, ← h3, h4, eq_comm]
          | 3 =>
            cases hasExt <;>
              simp [formatValidate, rawAt, rdiv, h1, h2, ← h3, h4, eq_comm]
          | 0 =>
            simp [formatValidate, rawAt, rdiv, h1, h2, ← h3, h4]
          | 2 =>
            simp [formatValidate, rawAt, rdiv, h1, h2, ← h3, h4]
          | (n + 4) =>
            simp [formatValidate, rawAt, rdiv, h1, h2, ← h3, h4]
      · simp [formatValidate, rawAt, rdiv, h1, h2, h3]
  · simp [formatValidate, rawAt, rdiv, h1]

/-- Exact characterisation of a successful cross-chunk validation when a
`fact` chunk is present: the outcome never depends on the span offsets
or on the captured input length. -/
theorem waveValidate_some_ok_iff {L : Nat} {f : FormatChunk} {d ks : List Nat}
    {i j s : Nat} {w : WaveFile} :
    waveValidate L (f, ⟨d, i⟩, some (⟨ks, j⟩, s)) = .ok w ↔
      (f.bits_per_sample / 8 ≠ 0 ∧ d.length / (f.bits_per_sample / 8) = s ∧
       f.channels ≠ 0 ∧ d.length = f.block_size * s / f.channels ∧
       w = ⟨f.format, f.channels, f.sample_rate, f.bits_per_sample / 8, d⟩) := by
  by_cases h1 : f.bits_per_sample / 8 = 0
  · simp [waveValidate, rdiv, h1]
  · by_cases h2 : d.length / (f.bits_per_sample / 8) = s
    · by_cases h3 : f.channels = 0
      · simp [waveValidate, rdiv, h1, h2, h3]
      · by_cases h4 : d.length = f.block_size * s / f.channels
        · have c1 : ¬(d.length / (f.bits_per_sample / 8) ≠ s) := by simp [h2]
          have c2 : ¬(d.length ≠ f.block_size * s / f.channels) := by simp [h4]
          simp only [waveValidate, rdiv, if_neg h1, if_neg c1, if_neg c2]
          simp [h1, h2, h3, h4, eq_comm]
          intro _
          rw [← h4, h2]
        · simp [waveValidate, rdiv, h1, h2, h3, h4]
    · simp [waveValidate, rdiv, h1, h2]

/-- Exact characterisation of a successful cross-chunk validation when no
`fact` chunk is present. -/
theorem waveValidate_none_ok_iff {L : Nat} {f : FormatChunk} {d : List Nat}
    {i : Nat} {w : WaveFile} :
    waveValidate L (f, ⟨d, i⟩, none) = .ok w ↔
      (f.format ≠ Format.FloatingPoint ∧ f.block_size ≠ 0 ∧ d.length % f.block_size = 0 ∧
       w = ⟨f.format, f.channels, f.sample_rate, f.bits_per_sample / 8, d⟩) := by
  by_cases h1 : f.format = Format.FloatingPoint
  · simp [waveValidate, rmod, h1]
  · by_cases h2 : f.block_size = 0
    · simp [waveValidate, rmod, h1, h2]
    · by_cases h3 : d.length % f.block_size = 0
      · simp [waveValidate, rmod, h1, h2, h3, eq_comm]
      · simp [waveValidate, rmod, h1, h2, h3]

/-- The outcome of `format_chunk` on a canonical `fmt ` chunk, as a
function of the declared extension field: absent (size 16), present and
zero (size 18), or present and nonzero (a parse failure, because the
extension is parsed as a tag of the two zero bytes and `all_consuming`
then rejects the leftover). -/
def fvOf (ft ch rate br blk bits : Nat) (ext : Option Nat) (i : Nat) : Val FormatChunk :=
  match ext with
  | none => formatValidate (rawAt ft ch rate br blk bits false i)
  | some v =>
      if v = 0 then formatValidate (rawAt ft ch rate br blk bits true i)
      else .err ⟨.Nom .Eof, i + 24⟩

/-- Bound on the stored extension value (a Rust `u16`). -/
def ExtBound (ext : Option Nat) : Prop := ∀ v, ext = some v → v < 65536

theorem format_chunk_mk_general {ft ch rate br blk bits : Nat}
    (hft : ft < 65536) (hch : ch < 65536) (hrate : rate < 4294967296)
    (hbr : br < 4294967296) (hblk : blk < 65536) (hbits : bits < 65536)
    {ext : Option Nat} (hext : ExtBound ext) (r : List Nat) (i : Nat) :
    format_chunk ⟨mkFmt ft ch rate br blk bits ext ++ r, i⟩ =
      liftP (fvOf ft ch rate br blk bits ext i) r
        (i + (mkFmt ft ch rate br blk bits ext).length) := by
  cases ext with
  | none =>
    rw [format_chunk_mk16 hft hch hrate hbr hblk hbits r i]
    simp [fvOf, mkFmt_length]
  | some v =>
    have hv : v < 65536 := hext v rfl
    rw [format_chunk_mk18 hft hch hrate hbr hblk hbits hv r i]
    by_cases hz : v = 0
    · subst hz
      simp [fvOf, mkFmt_length]
    · simp [fvOf, mkFmt_length, hz, liftP]

/-- A canonical `data` chunk: the declared length is the payload length,
and a pad byte `p` follows exactly when the payload length is odd. -/
def mkDataP (d : List Nat) (p : Nat) : List Nat :=
  if d.length % 2 = 0 then mkData d else mkData d ++ [p]

theorem mkDataP_length (d : List Nat) (p : Nat) :
    (mkDataP d p).length = (if d.length % 2 = 0 then 8 else 9) + d.length := by
  by_cases he : d.length % 2 = 0 <;> first
  | (simp [mkDataP, he, mkData_length]; omega)
  | simp [mkDataP, he, mkData_length]

theorem data_chunk_mkDataP {d : List Nat} (hn : d.length < 4294967296) (p : Nat)
    (r : List Nat) (i : Nat) :
    data_chunk ⟨mkDataP d p ++ r, i⟩ = .ok ⟨r, i + (mkDataP d p).length⟩ ⟨d, i + 8⟩ := by
  by_cases he : d.length % 2 = 0
  · rw [mkDataP, if_pos he, mkData_length]
    exact data_chunk_mk_even hn he r i
  · have ho : d.length % 2 = 1 := by omega
    rw [mkDataP, if_neg he, List.append_assoc, List.singleton_append]
    rw [data_chunk_mk_odd_pad hn ho p r i]
    have hl : (mkData d ++ [p]).length = 9 + d.length := by
      simp [mkData_length]
      omega
    rw [hl]

theorem mkFmt_take4 (ft ch rate br blk bits : Nat) (ext : Option Nat) :
    (mkFmt ft ch rate br blk bits ext).take 4 = fmtTagBytes :=
  take_of_append_take rfl rfl

theorem mkData_take4 (d : List Nat) : (mkData d).take 4 = dataTagBytes :=
  take_of_append_take rfl rfl

theorem mkDataP_take4 (d : List Nat) (p : Nat) : (mkDataP d p).take 4 = dataTagBytes := by
  by_cases he : d.length % 2 = 0
  · rw [mkDataP, if_pos he]
    exact mkData_take4 d
  · rw [mkDataP, if_neg he]
    exact take_of_append_take (mkData_take4 d) rfl

theorem mkFact_take4 (s : Nat) : (mkFact s).take 4 = [102, 97, 99, 116] :=
  take_of_append_take rfl rfl

/-- The six possible relative orders of the `fmt `, `data` and `fact`
chunks inside the RIFF payload. -/
inductive ChunkOrder where
  | fdk
  | fkd
  | dfk
  | dkf
  | kfd
  | kdf
deriving DecidableEq, Repr

/-- Concatenate the three chunks in a given order. -/
def arrange : ChunkOrder → List Nat → List Nat → List Nat → List Nat
  | .fdk, F, D, K => F ++ (D ++ K)
  | .fkd, F, D, K => F ++ (K ++ D)
  | .dfk, F, D, K => D ++ (F ++ K)
  | .dkf, F, D, K => D ++ (K ++ F)
  | .kfd, F, D, K => K ++ (F ++ D)
  | .kdf, F, D, K => K ++ (D ++ F)

theorem arrange_length (o : ChunkOrder) (F D K : List Nat) :
    (arrange o F D K).length = F.length + D.length + K.length := by
  cases o <;> simp [arrange] <;> omega

/-- The family of RIFF/WAVE files used for the chunk-order claims: one
canonical `fmt ` chunk, one canonical `data` chunk (padded exactly when
its payload length is odd), and one canonical `fact` chunk, in the given
order. -/
def orderedWave (ft ch rate br blk bits : Nat) (ext : Option Nat) (d : List Nat)
    (p s : Nat) (o : ChunkOrder) : List Nat :=
  riffFile (arrange o (mkFmt ft ch rate br blk bits ext) (mkDataP d p) (mkFact s))

theorem mkFmt_length_le (ft ch rate br blk bits : Nat) (ext : Option Nat) :
    (mkFmt ft ch rate br blk bits ext).length ≤ 26 := by
  rw [mkFmt_length]
  cases ext <;> norm_num

theorem mkDataP_length_le (d : List Nat) (p : Nat) :
    (mkDataP d p).length ≤ 9 + d.length := by
  rw [mkDataP_length]
  split <;> omega

/-- Read outcome of the three-chunk family in order `fmt `, `data`,
`fact`. -/
theorem read_ordered_fdk {ft ch rate br blk bits : Nat} {ext : Option Nat} {d : List Nat}
    {p s : Nat}
    (hft : ft < 65536) (hch : ch < 65536) (hrate : rate < 4294967296) (hbr : br < 4294967296)
    (hblk : blk < 65536) (hbits : bits < 65536) (hext : ExtBound ext) (hs : s < 4294967296)
    (hdb : d.length + 100 < 4294967296) :
    WaveFile.read (orderedWave ft ch rate br blk bits ext d p s .fdk) =
      readOut (fvOf ft ch rate br blk bits ext 12) (fun _ => ⟨.Nom .Tag, 12⟩)
        (orderedWave ft ch rate br blk bits ext d p s .fdk).length
        ⟨d, 12 + (mkFmt ft ch rate br blk bits ext).length + 8⟩
        (some (⟨le32 s,
          12 + (mkFmt ft ch rate br blk bits ext).length + (mkDataP d p).length + 8⟩, s)) := by
  have hdl : d.length < 4294967296 := by omega
  have hlen : 4 + (mkFmt ft ch rate br blk bits ext ++ (mkDataP d p ++ mkFact s)).length <
      4294967296 := by
    simp only [List.length_append]
    have h1 := mkFmt_length_le ft ch rate br blk bits ext
    have h2 := mkDataP_length_le d p
    have h3 := mkFact_length s
    omega
  have hF : ∀ r, format_chunk ⟨mkFmt ft ch rate br blk bits ext ++ r, 12⟩ =
      liftP (fvOf ft ch rate br blk bits ext 12) r
        (12 + (mkFmt ft ch rate br blk bits ext).length) :=
    fun r => format_chunk_mk_general hft hch hrate hbr hblk hbits hext r 12
  have hD : ∀ r, data_chunk ⟨mkDataP d p ++ r, 12 + (mkFmt ft ch rate br blk bits ext).length⟩ =
      .ok ⟨r, 12 + (mkFmt ft ch rate br blk bits ext).length + (mkDataP d p).length⟩
        ⟨d, 12 + (mkFmt ft ch rate br blk bits ext).length + 8⟩ :=
    fun r => data_chunk_mkDataP hdl p r _
  have hK : ∀ r, fact_chunk ⟨mkFact s ++ r,
      12 + (mkFmt ft ch rate br blk bits ext).length + (mkDataP d p).length⟩ =
      .ok ⟨r, 12 + (mkFmt ft ch rate br blk bits ext).length + (mkDataP d p).length +
          (mkFact s).length⟩
        (⟨le32 s,
          12 + (mkFmt ft ch rate br blk bits ext).length + (mkDataP d p).length + 8⟩, s) := by
    intro r
    rw [mkFact_length]
    exact fact_chunk_mk hs r _
  simp only [orderedWave, arrange]
  rw [read_riffFile _ hlen, perm_FDK hF hD hK (mkFmt_take4 ft ch rate br blk bits ext)]
  rcases hfv : fvOf ft ch rate br blk bits ext 12 with v | e | _ <;>
    simp [hfv, permOut3, readOut, orderedWave, arrange]

/-- Read outcome of the three-chunk family in order `fkd`. -/
theorem read_ordered_fkd {ft ch rate br blk bits : Nat} {ext : Option Nat} {d : List Nat}
    {p s : Nat}
    (hft : ft < 65536) (hch : ch < 65536) (hrate : rate < 4294967296) (hbr : br < 4294967296)
    (hblk : blk < 65536) (hbits : bits < 65536) (hext : ExtBound ext) (hs : s < 4294967296)
    (hdb : d.length + 100 < 4294967296) :
    WaveFile.read (orderedWave ft ch rate br blk bits ext d p s .fkd) =
      readOut (fvOf ft ch rate br blk bits ext (12)) (fun _ => ⟨.Nom .Tag, 12⟩)
        (orderedWave ft ch rate br blk bits ext d p s .fkd).length
        ⟨d, 12 + (mkFmt ft ch rate br blk bits ext).length + (mkFact s).length + 8⟩
        (some (⟨le32 s, 12 + (mkFmt ft ch rate br blk bits ext).length + 8⟩, s)) := by
  have hdl : d.length < 4294967296 := by omega
  have hlen : 4 + (mkFmt ft ch rate br blk bits ext ++ (mkFact s ++ mkDataP d p)).length < 4294967296 := by
    simp only [List.length_append]
    have h1 := mkFmt_length_le ft ch rate br blk bits ext
    have h2 := mkDataP_length_le d p
    have h3 := mkFact_length s
    omega
  have hF : ∀ r, format_chunk ⟨mkFmt ft ch rate br blk bits ext ++ r, 12⟩ =
      liftP (fvOf ft ch rate br blk bits ext (12)) r ((12) + (mkFmt ft ch rate br blk bits ext).length) :=
    fun r => format_chunk_mk_general hft hch hrate hbr hblk hbits hext r _
  have hD : ∀ r, data_chunk ⟨mkDataP d p ++ r, 12 + (mkFmt ft ch rate br blk bits ext).length + (mkFact s).length⟩ =
      .ok ⟨r, (12 + (mkFmt ft ch rate br blk bits ext).length + (mkFact s).length) + (mkDataP d p).length⟩ ⟨d, (12 + (mkFmt ft ch rate br blk bits ext).length + (mkFact s).length) + 8⟩ :=
    fun r => data_chunk_mkDataP hdl p r _
  have hK : ∀ r, fact_chunk ⟨mkFact s ++ r, 12 + (mkFmt ft ch rate br blk bits ext).length⟩ =
      .ok ⟨r, (12 + (mkFmt ft ch rate br blk bits ext).length) + (mkFact s).length⟩ (⟨le32 s, (12 + (mkFmt ft ch rate br blk bits ext).length) + 8⟩, s) := by
    intro r
    rw [mkFact_length]
    exact fact_chunk_mk hs r _
  simp only [orderedWave, arrange]
  rw [read_riffFile _ hlen, perm_FKD hF hK hD (mkFmt_take4 ft ch rate br blk bits ext) (mkFact_take4 s)]
  rcases hfv : fvOf ft ch rate br blk bits ext (12) with v | e | _ <;>
    simp [hfv, permOut3, readOut, orderedWave, arrange]

/-- Read outcome of the three-chunk family in order `dfk`. -/
theorem read_ordered_dfk {ft ch rate br blk bits : Nat} {ext : Option Nat} {d : List Nat}
    {p s : Nat}
    (hft : ft < 65536) (hch : ch < 65536) (hrate : rate < 4294967296) (hbr : br < 4294967296)
    (hblk : blk < 65536) (hbits : bits < 65536) (hext : ExtBound ext) (hs : s < 4294967296)
    (hdb : d.length + 100 < 4294967296) :
    WaveFile.read (orderedWave ft ch rate br blk bits ext d p s .dfk) =
      readOut (fvOf ft ch rate br blk bits ext (12 + (mkDataP d p).length)) (fun e => e)
        (orderedWave ft ch rate br blk bits ext d p s .dfk).length
        ⟨d, 12 + 8⟩
        (some (⟨le32 s, 12 + (mkDataP d p).length + (mkFmt ft ch rate br blk bits ext).length + 8⟩, s)) := by
  have hdl : d.length < 4294967296 := by omega
  have hlen : 4 + (mkDataP d p ++ (mkFmt ft ch rate br blk bits ext ++ mkFact s)).length < 4294967296 := by
    simp only [List.length_append]
    have h1 := mkFmt_length_le ft ch rate br blk bits ext
    have h2 := mkDataP_length_le d p
    have h3 := mkFact_length s
    omega
  have hF : ∀ r, format_chunk ⟨mkFmt ft ch rate br blk bits ext ++ r, 12 + (mkDataP d p).length⟩ =
      liftP (fvOf ft ch rate br blk bits ext (12 + (mkDataP d p).length)) r ((12 + (mkDataP d p).length) + (mkFmt ft ch rate br blk bits ext).length) :=
    fun r => format_chunk_mk_general hft hch hrate hbr hblk hbits hext r _
  have hD : ∀ r, data_chunk ⟨mkDataP d p ++ r, 12⟩ =
      .ok ⟨r, (12) + (mkDataP d p).length⟩ ⟨d, (12) + 8⟩ :=
    fun r => data_chunk_mkDataP hdl p r _
  have hK : ∀ r, fact_chunk ⟨mkFact s ++ r, 12 + (mkDataP d p).length + (mkFmt ft ch rate br blk bits ext).length⟩ =
      .ok ⟨r, (12 + (mkDataP d p).length + (mkFmt ft ch rate br blk bits ext).length) + (mkFact s).length⟩ (⟨le32 s, (12 + (mkDataP d p).length + (mkFmt ft ch rate br blk bits ext).length) + 8⟩, s) := by
    intro r
    rw [mkFact_length]
    exact fact_chunk_mk hs r _
  simp only [orderedWave, arrange]
  rw [read_riffFile _ hlen, perm_DFK hD hF hK (mkDataP_take4 d p) (mkFmt_take4 ft ch rate br blk bits ext)]
  rcases hfv : fvOf ft ch rate br blk bits ext (12 + (mkDataP d p).length) with v | e | _ <;>
    simp [hfv, permOut3, readOut, orderedWave, arrange]

/-- Read outcome of the three-chunk family in order `dkf`. -/
theorem read_ordered_dkf {ft ch rate br blk bits : Nat} {ext : Option Nat} {d : List Nat}
    {p s : Nat}
    (hft : ft < 65536) (hch : ch < 65536) (hrate : rate < 4294967296) (hbr : br < 4294967296)
    (hblk : blk < 65536) (hbits : bits < 65536) (hext : ExtBound ext) (hs : s < 4294967296)
    (hdb : d.length + 100 < 4294967296) :
    WaveFile.read (orderedWave ft ch rate br blk bits ext d p s .dkf) =
      readOut (fvOf ft ch rate br blk bits ext (12 + (mkDataP d p).length + (mkFact s).length)) (fun e => e)
        (orderedWave ft ch rate br blk bits ext d p s .dkf).length
        ⟨d, 12 + 8⟩
        (some (⟨le32 s, 12 + (mkDataP d p).length + 8⟩, s)) := by
  have hdl : d.length < 4294967296 := by omega
  have hlen : 4 + (mkDataP d p ++ (mkFact s ++ mkFmt ft ch rate br blk bits ext)).length < 4294967296 := by
    simp only [List.length_append]
    have h1 := mkFmt_length_le ft ch rate br blk bits ext
    have h2 := mkDataP_length_le d p
    have h3 := mkFact_length s
    omega
  have hF : ∀ r, format_chunk ⟨mkFmt ft ch rate br blk bits ext ++ r, 12 + (mkDataP d p).length + (mkFact s).length⟩ =
      liftP (fvOf ft ch rate br blk bits ext (12 + (mkDataP d p).length + (mkFact s).length)) r ((12 + (mkDataP d p).length + (mkFact s).length) + (mkFmt ft ch rate br blk bits ext).length) :=
    fun r => format_chunk_mk_general hft hch hrate hbr hblk hbits hext r _
  have hD : ∀ r, data_chunk ⟨mkDataP d p ++ r, 12⟩ =
      .ok ⟨r, (12) + (mkDataP d p).length⟩ ⟨d, (12) + 8⟩ :=
    fun r => data_chunk_mkDataP hdl p r _
  have hK : ∀ r, fact_chunk ⟨mkFact s ++ r, 12 + (mkDataP d p).length⟩ =
      .ok ⟨r, (12 + (mkDataP d p).length) + (mkFact s).length⟩ (⟨le32 s, (12 + (mkDataP d p).length) + 8⟩, s) := by
    intro r
    rw [mkFact_length]
    exact fact_chunk_mk hs r _
  simp only [orderedWave, arrange]
  rw [read_riffFile _ hlen, perm_DKF hD hK hF (mkDataP_take4 d p) (mkFact_take4 s)]
  rcases hfv : fvOf ft ch rate br blk bits ext (12 + (mkDataP d p).length + (mkFact s).length) with v | e | _ <;>
    simp [hfv, permOut3, readOut, orderedWave, arrange]

/-- Read outcome of the three-chunk family in order `kfd`. -/
theorem read_ordered_kfd {ft ch rate br blk bits : Nat} {ext : Option Nat} {d : List Nat}
    {p s : Nat}
    (hft : ft < 65536) (hch : ch < 65536) (hrate : rate < 4294967296) (hbr : br < 4294967296)
    (hblk : blk < 65536) (hbits : bits < 65536) (hext : ExtBound ext) (hs : s < 4294967296)
    (hdb : d.length + 100 < 4294967296) :
    WaveFile.read (orderedWave ft ch rate br blk bits ext d p s .kfd) =
      readOut (fvOf ft ch rate br blk bits ext (12 + (mkFact s).length)) (fun _ => ⟨.Nom .Tag, 12 + (mkFact s).length⟩)
        (orderedWave ft ch rate br blk bits ext d p s .kfd).length
        ⟨d, 12 + (mkFact s).length + (mkFmt ft ch rate br blk bits ext).length + 8⟩
        (some (⟨le32 s, 12 + 8⟩, s)) := by
  have hdl : d.length < 4294967296 := by omega
  have hlen : 4 + (mkFact s ++ (mkFmt ft ch rate br blk bits ext ++ mkDataP d p)).length < 4294967296 := by
    simp only [List.length_append]
    have h1 := mkFmt_length_le ft ch rate br blk bits ext
    have h2 := mkDataP_length_le d p
    have h3 := mkFact_length s
    omega
  have hF : ∀ r, format_chunk ⟨mkFmt ft ch rate br blk bits ext ++ r, 12 + (mkFact s).length⟩ =
      liftP (fvOf ft ch rate br blk bits ext (12 + (mkFact s).length)) r ((12 + (mkFact s).length) + (mkFmt ft ch rate br blk bits ext).length) :=
    fun r => format_chunk_mk_general hft hch hrate hbr hblk hbits hext r _
  have hD : ∀ r, data_chunk ⟨mkDataP d p ++ r, 12 + (mkFact s).length + (mkFmt ft ch rate br blk bits ext).length⟩ =
      .ok ⟨r, (12 + (mkFact s).length + (mkFmt ft ch rate br blk bits ext).length) + (mkDataP d p).length⟩ ⟨d, (12 + (mkFact s).length + (mkFmt ft ch rate br blk bits ext).length) + 8⟩ :=
    fun r => data_chunk_mkDataP hdl p r _
  have hK : ∀ r, fact_chunk ⟨mkFact s ++ r, 12⟩ =
      .ok ⟨r, (12) + (mkFact s).length⟩ (⟨le32 s, (12) + 8⟩, s) := by
    intro r
    rw [mkFact_length]
    exact fact_chunk_mk hs r _
  simp only [orderedWave, arrange]
  rw [read_riffFile _ hlen, perm_KFD hK hF hD (mkFact_take4 s) (mkFmt_take4 ft ch rate br blk bits ext)]
  rcases hfv : fvOf ft ch rate br blk bits ext (12 + (mkFact s).length) with v | e | _ <;>
    simp [hfv, permOut3, readOut, orderedWave, arrange]

/-- Read outcome of the three-chunk family in order `kdf`. -/
theorem read_ordered_kdf {ft ch rate br blk bits : Nat} {ext : Option Nat} {d : List Nat}
    {p s : Nat}
    (hft : ft < 65536) (hch : ch < 65536) (hrate : rate < 4294967296) (hbr : br < 4294967296)
    (hblk : blk < 65536) (hbits : bits < 65536) (hext : ExtBound ext) (hs : s < 4294967296)
    (hdb : d.length + 100 < 4294967296) :
    WaveFile.read (orderedWave ft ch rate br blk bits ext d p s .kdf) =
      readOut (fvOf ft ch rate br blk bits ext (12 + (mkFact s).length + (mkDataP d p).length)) (fun e => e)
        (orderedWave ft ch rate br blk bits ext d p s .kdf).length
        ⟨d, 12 + (mkFact s).length + 8⟩
        (some (⟨le32 s, 12 + 8⟩, s)) := by
  have hdl : d.length < 4294967296 := by omega
  have hlen : 4 + (mkFact s ++ (mkDataP d p ++ mkFmt ft ch rate br blk bits ext)).length < 4294967296 := by
    simp only [List.length_append]
    have h1 := mkFmt_length_le ft ch rate br blk bits ext
    have h2 := mkDataP_length_le d p
    have h3 := mkFact_length s
    omega
  have hF : ∀ r, format_chunk ⟨mkFmt ft ch rate br blk bits ext ++ r, 12 + (mkFact s).length + (mkDataP d p).length⟩ =
      liftP (fvOf ft ch rate br blk bits ext (12 + (mkFact s).length + (mkDataP d p).length)) r ((12 + (mkFact s).length + (mkDataP d p).length) + (mkFmt ft ch rate br blk bits ext).length) :=
    fun r => format_chunk_mk_general hft hch hrate hbr hblk hbits hext r _
  have hD : ∀ r, data_chunk ⟨mkDataP d p ++ r, 12 + (mkFact s).length⟩ =
      .ok ⟨r, (12 + (mkFact s).length) + (mkDataP d p).length⟩ ⟨d, (12 + (mkFact s).length) + 8⟩ :=
    fun r => data_chunk_mkDataP hdl p r _
  have hK : ∀ r, fact_chunk ⟨mkFact s ++ r, 12⟩ =
      .ok ⟨r, (12) + (mkFact s).length⟩ (⟨le32 s, (12) + 8⟩, s) := by
    intro r
    rw [mkFact_length]
    exact fact_chunk_mk hs r _
  simp only [orderedWave, arrange]
  rw [read_riffFile _ hlen, perm_KDF hK hD hF (mkFact_take4 s) (mkDataP_take4 d p)]
  rcases hfv : fvOf ft ch rate br blk bits ext (12 + (mkFact s).length + (mkDataP d p).length) with v | e | _ <;>
    simp [hfv, permOut3, readOut, orderedWave, arrange]

theorem liftR_ok_iff {x : Val WaveFile} {w : WaveFile} : liftR x = .ok w ↔ x = .ok w := by
  cases x <;> simp [liftR]

/-- The conditions under which the three-chunk family decodes
successfully; they do not depend on the chunk order. -/
def WaveOkCond (ft ch rate br blk bits : Nat) (ext : Option Nat) (d : List Nat)
    (s : Nat) : Prop :=
  wrap32 (rate * blk) = br ∧ bits / 8 ≠ 0 ∧ ch = blk / (bits / 8) ∧ ch ≠ 0 ∧
  ((ft = 1 ∧ ext = none) ∨ (ft = 1 ∧ ext = some 0) ∨ (ft = 3 ∧ ext = some 0)) ∧
  d.length / (bits / 8) = s ∧ d.length = blk * s / ch

/-- The `WaveFile` value every successful order decodes to. -/
def waveOf (ft ch rate bits : Nat) (d : List Nat) : WaveFile :=
  ⟨if ft = 3 then .FloatingPoint else .PulseCodeModulation, ch, rate, bits / 8, d⟩

theorem fvOf_ok_of_cond {ft ch rate br blk bits : Nat} {ext : Option Nat} {d : List Nat}
    {s : Nat} (iF : Nat) (hc : WaveOkCond ft ch rate br blk bits ext d s) :
    fvOf ft ch rate br blk bits ext iF =
      .ok ⟨if ft = 3 then .FloatingPoint else .PulseCodeModulation, ch, rate, blk, bits⟩ := by
  obtain ⟨h1, h2, h3, h4, hdisj, _, _⟩ := hc
  rcases hdisj with ⟨hft, hextc⟩ | ⟨hft, hextc⟩ | ⟨hft, hextc⟩ <;> subst hft <;> subst hextc <;>
    simp only [fvOf, if_pos rfl] <;>
    first
    | exact formatValidate_rawAt_ok_iff.mpr ⟨h1, h2, h3, h4, Or.inl ⟨rfl, by norm_num⟩⟩
    | exact formatValidate_rawAt_ok_iff.mpr ⟨h1, h2, h3, h4, Or.inr ⟨rfl, rfl, by norm_num⟩⟩

/-- Success characterisation of the whole-file read outcome shape: it
depends neither on the span offsets, the input length, the buried-error
shape, nor the chunk order. -/
theorem readOut_ok_iff {ft ch rate br blk bits : Nat} {ext : Option Nat} {iF : Nat}
    {eOut : ReadError → ReadError} {L : Nat} {d ks : List Nat} {iD iK s : Nat}
    {w : WaveFile} :
    readOut (fvOf ft ch rate br blk bits ext iF) eOut L ⟨d, iD⟩ (some (⟨ks, iK⟩, s)) = .ok w ↔
      (WaveOkCond ft ch rate br blk bits ext d s ∧ w = waveOf ft ch rate bits d) := by
  constructor
  · intro hok
    rcases hfv : fvOf ft ch rate br blk bits ext iF with v0 | e0 | _
    · rw [hfv] at hok
      simp only [readOut] at hok
      rw [liftR_ok_iff, waveValidate_some_ok_iff] at hok
      obtain ⟨hb8, hfact1, hch0, hfact2, hw⟩ := hok
      rcases hext2 : ext with _ | v
      · subst hext2
        simp only [fvOf] at hfv
        rcases formatValidate_rawAt_ok_iff.mp hfv with
          ⟨h1, h2, h3, h4, ⟨hft, hv0⟩ | ⟨hft, hhe, hv0⟩⟩
        · subst hv0
          subst hft
          refine ⟨⟨h1, h2, h3, h4, Or.inl ⟨rfl, rfl⟩, ?_, ?_⟩, ?_⟩ <;>
            simp_all [waveOf]
        · exact absurd hhe (by simp)
      · subst hext2
        by_cases hz : v = 0
        · subst hz
          simp only [fvOf, if_pos rfl] at hfv
          rcases formatValidate_rawAt_ok_iff.mp hfv with
            ⟨h1, h2, h3, h4, ⟨hft, hv0⟩ | ⟨hft, hhe, hv0⟩⟩
          · subst hv0
            subst hft
            refine ⟨⟨h1, h2, h3, h4, Or.inr (Or.inl ⟨rfl, rfl⟩), ?_, ?_⟩, ?_⟩ <;>
              simp_all [waveOf]
          · subst hv0
            subst hft
            refine ⟨⟨h1, h2, h3, h4, Or.inr (Or.inr ⟨rfl, rfl⟩), ?_, ?_⟩, ?_⟩ <;>
              simp_all [waveOf]
        · simp only [fvOf, if_neg hz] at hfv
          exact absurd hfv (by simp)
    · rw [hfv] at hok
      simp [readOut] at hok
    · rw [hfv] at hok
      simp [readOut] at hok
  · rintro ⟨hc, hw⟩
    have hok := fvOf_ok_of_cond iF hc
    rw [hok]
    simp only [readOut]
    rw [liftR_ok_iff, waveValidate_some_ok_iff]
    obtain ⟨h1, h2, h3, h4, hdisj, hf1, hf2⟩ := hc
    subst hw
    exact ⟨h2, hf1, h4, hf2, by simp [waveOf]⟩

/-- For every chunk order, the three-chunk family decodes successfully
exactly under `WaveOkCond`, to the order-independent value `waveOf`. -/
theorem ordered_ok_iff {ft ch rate br blk bits : Nat} {ext : Option Nat} {d : List Nat}
    {p s : Nat} (o : ChunkOrder)
    (hft : ft < 65536) (hch : ch < 65536) (hrate : rate < 4294967296) (hbr : br < 4294967296)
    (hblk : blk < 65536) (hbits : bits < 65536) (hext : ExtBound ext) (hs : s < 4294967296)
    (hdb : d.length + 100 < 4294967296) (w : WaveFile) :
    WaveFile.read (orderedWave ft ch rate br blk bits ext d p s o) = .ok w ↔
      (WaveOkCond ft ch rate br blk bits ext d s ∧ w = waveOf ft ch rate bits d) := by
  cases o
  · rw [read_ordered_fdk hft hch hrate hbr hblk hbits hext hs hdb]
    exact readOut_ok_iff
  · rw [read_ordered_fkd hft hch hrate hbr hblk hbits hext hs hdb]
    exact readOut_ok_iff
  · rw [read_ordered_dfk hft hch hrate hbr hblk hbits hext hs hdb]
    exact readOut_ok_iff
  · rw [read_ordered_dkf hft hch hrate hbr hblk hbits hext hs hdb]
    exact readOut_ok_iff
  · rw [read_ordered_kfd hft hch hrate hbr hblk hbits hext hs hdb]
    exact readOut_ok_iff
  · rw [read_ordered_kdf hft hch hrate hbr hblk hbits hext hs hdb]
    exact readOut_ok_iff

/-- C4: two byte buffers identical except for the relative order of the
`fmt `, `fact` and `data` sub-chunks inside the RIFF payload decode
identically whenever one of them decodes at all: if one order yields a
`WaveFile`, every order yields that same `WaveFile`.  The sub-chunks
range over their canonical wire shapes (arbitrary `fmt ` field values
with the extension field absent or of any value, an arbitrary `data`
payload padded exactly when its length is odd, and an arbitrary `fact`
sample count); orderings of chunks outside these shapes never decode
successfully in any order, so the claim is vacuous there. -/
theorem c4_chunk_order_independence {ft ch rate br blk bits : Nat} {ext : Option Nat}
    {d : List Nat} {p s : Nat}
    (hft : ft < 65536) (hch : ch < 65536) (hrate : rate < 4294967296) (hbr : br < 4294967296)
    (hblk : blk < 65536) (hbits : bits < 65536) (hext : ExtBound ext) (hs : s < 4294967296)
    (hdb : d.length + 100 < 4294967296) (o1 o2 : ChunkOrder) (w : WaveFile)
    (h : WaveFile.read (orderedWave ft ch rate br blk bits ext d p s o1) = .ok w) :
    WaveFile.read (orderedWave ft ch rate br blk bits ext d p s o2) = .ok w :=
  (ordered_ok_iff o2 hft hch hrate hbr hblk hbits hext hs hdb w).mpr
    ((ordered_ok_iff o1 hft hch hrate hbr hblk hbits hext hs hdb w).mp h)

/-- Witness for C4 at a concrete valid float file: the canonical order
and the reversed order decode to the same `WaveFile`. -/
theorem c4_chunk_order_independence_witness :
    WaveFile.read (orderedWave 3 1 0 0 4 32 (some 0) [1, 2, 3, 4] 0 1 .fdk) =
      .ok ⟨.FloatingPoint, 1, 0, 4, [1, 2, 3, 4]⟩ ∧
    WaveFile.read (orderedWave 3 1 0 0 4 32 (some 0) [1, 2, 3, 4] 0 1 .kdf) =
      .ok ⟨.FloatingPoint, 1, 0, 4, [1, 2, 3, 4]⟩ :=
  ⟨by decide,
   c4_chunk_order_independence (by norm_num) (by norm_num) (by norm_num) (by norm_num)
     (by norm_num) (by norm_num) (by rintro v ⟨⟩; norm_num) (by norm_num) (by norm_num)
     .fdk .kdf _ (by decide)⟩

/-- A RIFF/WAVE file with a `fmt ` chunk followed by a `data` chunk and
no `fact` chunk. -/
def fmtDataWave (ft ch rate br blk bits : Nat) (ext : Option Nat) (d : List Nat)
    (p : Nat) : List Nat :=
  riffFile (mkFmt ft ch rate br blk bits ext ++ mkDataP d p)

/-- A RIFF/WAVE file with a `data` chunk followed by a `fmt ` chunk and
no `fact` chunk. -/
def dataFmtWave (ft ch rate br blk bits : Nat) (ext : Option Nat) (d : List Nat)
    (p : Nat) : List Nat :=
  riffFile (mkDataP d p ++ mkFmt ft ch rate br blk bits ext)

/-- Read outcome of the two-chunk family in order `fmt `, `data`: a
failing `fmt ` chunk is buried behind the data parser's tag error. -/
theorem read_fmtData {ft ch rate br blk bits : Nat} {ext : Option Nat} {d : List Nat}
    {p : Nat}
    (hft : ft < 65536) (hch : ch < 65536) (hrate : rate < 4294967296) (hbr : br < 4294967296)
    (hblk : blk < 65536) (hbits : bits < 65536) (hext : ExtBound ext)
    (hdb : d.length + 100 < 4294967296) :
    WaveFile.read (fmtDataWave ft ch rate br blk bits ext d p) =
      readOut (fvOf ft ch rate br blk bits ext 12) (fun _ => ⟨.Nom .Tag, 12⟩)
        (fmtDataWave ft ch rate br blk bits ext d p).length
        ⟨d, 12 + (mkFmt ft ch rate br blk bits ext).length + 8⟩ none := by
  have hdl : d.length < 4294967296 := by omega
  have hlen : 4 + (mkFmt ft ch rate br blk bits ext ++ mkDataP d p).length < 4294967296 := by
    simp only [List.length_append]
    have h1 := mkFmt_length_le ft ch rate br blk bits ext
    have h2 := mkDataP_length_le d p
    omega
  have hF : ∀ r, format_chunk ⟨mkFmt ft ch rate br blk bits ext ++ r, 12⟩ =
      liftP (fvOf ft ch rate br blk bits ext 12) r
        (12 + (mkFmt ft ch rate br blk bits ext).length) :=
    fun r => format_chunk_mk_general hft hch hrate hbr hblk hbits hext r 12
  have hD : ∀ r, data_chunk ⟨mkDataP d p ++ r, 12 + (mkFmt ft ch rate br blk bits ext).length⟩ =
      .ok ⟨r, 12 + (mkFmt ft ch rate br blk bits ext).length + (mkDataP d p).length⟩
        ⟨d, 12 + (mkFmt ft ch rate br blk bits ext).length + 8⟩ :=
    fun r => data_chunk_mkDataP hdl p r _
  simp only [fmtDataWave]
  rw [read_riffFile _ hlen, perm_FD hF hD (mkFmt_take4 ft ch rate br blk bits ext)]
  rcases hfv : fvOf ft ch rate br blk bits ext 12 with v | e | _ <;>
    simp [hfv, permOut3, readOut, fmtDataWave]

/-- Read outcome of the two-chunk family in order `data`, `fmt `: a
failing `fmt ` chunk's own positioned error is surfaced. -/
theorem read_dataFmt {ft ch rate br blk bits : Nat} {ext : Option Nat} {d : List Nat}
    {p : Nat}
    (hft : ft < 65536) (hch : ch < 65536) (hrate : rate < 4294967296) (hbr : br < 4294967296)
    (hblk : blk < 65536) (hbits : bits < 65536) (hext : ExtBound ext)
    (hdb : d.length + 100 < 4294967296) :
    WaveFile.read (dataFmtWave ft ch rate br blk bits ext d p) =
      readOut (fvOf ft ch rate br blk bits ext (12 + (mkDataP d p).length)) (fun e => e)
        (dataFmtWave ft ch rate br blk bits ext d p).length
        ⟨d, 12 + 8⟩ none := by
  have hdl : d.length < 4294967296 := by omega
  have hlen : 4 + (mkDataP d p ++ mkFmt ft ch rate br blk bits ext).length < 4294967296 := by
    simp only [List.length_append]
    have h1 := mkFmt_length_le ft ch rate br blk bits ext
    have h2 := mkDataP_length_le d p
    omega
  have hD : ∀ r, data_chunk ⟨mkDataP d p ++ r, 12⟩ =
      .ok ⟨r, 12 + (mkDataP d p).length⟩ ⟨d, 12 + 8⟩ :=
    fun r => data_chunk_mkDataP hdl p r _
  have hF : ∀ r, format_chunk ⟨mkFmt ft ch rate br blk bits ext ++ r, 12 + (mkDataP d p).length⟩ =
      liftP (fvOf ft ch rate br blk bits ext (12 + (mkDataP d p).length)) r
        (12 + (mkDataP d p).length + (mkFmt ft ch rate br blk bits ext).length) :=
    fun r => format_chunk_mk_general hft hch hrate hbr hblk hbits hext r _
  simp only [dataFmtWave]
  rw [read_riffFile _ hlen,
      perm_DF hD hF (mkDataP_take4 d p) (mkFmt_take4 ft ch rate br blk bits ext)]
  rcases hfv : fvOf ft ch rate br blk bits ext (12 + (mkDataP d p).length) with v | e | _ <;>
    simp [hfv, permOut3, readOut, dataFmtWave]

/-- C7: for a canonical `data` chunk (declared length equal to the
payload length), an even-length chunk parses with no pad byte; an
odd-length chunk parses exactly when one extra byte follows, which is
skipped; an odd-length chunk with nothing after it is a parse failure. -/
theorem c7_data_chunk_padding {d : List Nat} (hn : d.length < 4294967296)
    (r : List Nat) (i p : Nat) :
    (d.length % 2 = 0 →
       data_chunk ⟨mkData d ++ r, i⟩ = .ok ⟨r, i + (8 + d.length)⟩ ⟨d, i + 8⟩) ∧
    (d.length % 2 = 1 →
       data_chunk ⟨mkData d ++ (p :: r), i⟩ = .ok ⟨r, i + (9 + d.length)⟩ ⟨d, i + 8⟩) ∧
    (d.length % 2 = 1 →
       data_chunk ⟨mkData d, i⟩ = .err ⟨.Nom .Eof, i + (8 + d.length)⟩) :=
  ⟨fun he => data_chunk_mk_even hn he r i,
   fun ho => data_chunk_mk_odd_pad hn ho p r i,
   fun ho => data_chunk_mk_odd_end hn ho i⟩

/-- Witness for C7: a two-byte chunk without pad, a one-byte chunk with
pad, and a one-byte chunk with no pad. -/
theorem c7_data_chunk_padding_witness :
    data_chunk ⟨mkData [5, 6] ++ [9], 0⟩ = .ok ⟨[9], 0 + (8 + 2)⟩ ⟨[5, 6], 0 + 8⟩ ∧
    data_chunk ⟨mkData [5] ++ (0 :: [9]), 0⟩ = .ok ⟨[9], 0 + (9 + 1)⟩ ⟨[5], 0 + 8⟩ ∧
    data_chunk ⟨mkData [5], 0⟩ = .err ⟨.Nom .Eof, 0 + (8 + 1)⟩ :=
  ⟨(c7_data_chunk_padding (by norm_num) [9] 0 0).1 (by norm_num),
   (c7_data_chunk_padding (by norm_num) [9] 0 0).2.1 (by norm_num),
   (c7_data_chunk_padding (by norm_num) [9] 0 0).2.2 (by norm_num)⟩

theorem fvOf_err_rate {ft ch rate br blk bits : Nat} {ext : Option Nat}
    (hz : ext = none ∨ ext = some 0) (hmm : wrap32 (rate * blk) ≠ br) (i : Nat) :
    fvOf ft ch rate br blk bits ext i = .err ⟨.DataRateMismatch, i + 16⟩ := by
  rcases hz with h | h <;> subst h <;> simp [fvOf, formatValidate, rawAt, hmm]

/-- C5 counterexample: a canonical-order file (fmt before data) whose
byte rate is `sample_rate * block_align + 1` is rejected with a generic
tag parse error at offset 12 (the first chunk's position), not with
`DataRateMismatch` at the byte-rate field's offset 28: the permutation
combinator's error handling discards the `fmt ` chunk's positioned
error. -/
theorem c5_counterexample :
    WaveFile.read (fmtDataWave 1 1 1 2 1 8 none [5, 6] 0) = .err ⟨.Nom .Tag, 12⟩ ∧
    WaveFile.read (fmtDataWave 1 1 1 2 1 8 none [5, 6] 0) ≠
      .err ⟨.DataRateMismatch, 28⟩ := by decide

/-- C5 amended: when the `data` chunk precedes the `fmt ` chunk, an
otherwise well-formed file whose byte-rate field differs from
`sample_rate * block_align` (wrapping `u32` product) is rejected with
`DataRateMismatch` positioned at the absolute offset of the byte-rate
field inside the original input. -/
theorem c5_data_rate_mismatch_surfaced {ft ch rate br blk bits : Nat} {ext : Option Nat}
    {d : List Nat} {p : Nat}
    (hft : ft < 65536) (hch : ch < 65536) (hrate : rate < 4294967296) (hbr : br < 4294967296)
    (hblk : blk < 65536) (hbits : bits < 65536) (hz : ext = none ∨ ext = some 0)
    (hdb : d.length + 100 < 4294967296)
    (hmm : wrap32 (rate * blk) ≠ br) :
    WaveFile.read (dataFmtWave ft ch rate br blk bits ext d p) =
      .err ⟨.DataRateMismatch, 12 + (mkDataP d p).length + 16⟩ := by
  have hext : ExtBound ext := by
    rcases hz with h | h <;> subst h
    · intro v hv
      cases hv
    · intro v hv
      cases hv
      norm_num
  rw [read_dataFmt hft hch hrate hbr hblk hbits hext hdb,
      fvOf_err_rate hz hmm (12 + (mkDataP d p).length)]
  simp [readOut]

/-- Witness for C5's amended statement: a data-first file with byte rate
2 but `sample_rate * block_align = 1` is rejected with
`DataRateMismatch` at offset 38 (12 header bytes, a 10-byte data chunk,
then 16 bytes into the fmt chunk). -/
theorem c5_data_rate_mismatch_surfaced_witness :
    WaveFile.read (dataFmtWave 1 1 1 2 1 8 none [5, 6] 0) =
      .err ⟨.DataRateMismatch, 12 + (mkDataP [5, 6] 0).length + 16⟩ :=
  c5_data_rate_mismatch_surfaced (by norm_num) (by norm_num) (by norm_num) (by norm_num)
    (by norm_num) (by norm_num) (Or.inl rfl) (by norm_num) (by decide)

/-- C6: a float-format `fmt ` chunk (tag 3, extension present and zero,
internally consistent) followed directly by a `data` chunk, with no
`fact` chunk anywhere, is rejected with `MissingFactChunk`; the error is
positioned at the total input length, the value the source puts there. -/
theorem c6_float_without_fact {ch rate br blk bits : Nat} {d : List Nat} {p : Nat}
    (hch : ch < 65536) (hrate : rate < 4294967296) (hbr : br < 4294967296)
    (hblk : blk < 65536) (hbits : bits < 65536)
    (hdb : d.length + 100 < 4294967296)
    (h1 : wrap32 (rate * blk) = br) (h2 : bits / 8 ≠ 0) (h3 : ch = blk / (bits / 8))
    (h4 : ch ≠ 0) :
    WaveFile.read (fmtDataWave 3 ch rate br blk bits (some 0) d p) =
      .err ⟨.MissingFactChunk, (fmtDataWave 3 ch rate br blk bits (some 0) d p).length⟩ := by
  have hext : ExtBound (some 0) := by
    intro v hv
    cases hv
    norm_num
  have hfv : fvOf 3 ch rate br blk bits (some 0) 12 =
      .ok ⟨.FloatingPoint, ch, rate, blk, bits⟩ := by
    simp only [fvOf, if_pos rfl]
    exact formatValidate_rawAt_ok_iff.mpr ⟨h1, h2, h3, h4, Or.inr ⟨rfl, rfl, rfl⟩⟩
  rw [read_fmtData (by norm_num) hch hrate hbr hblk hbits hext hdb, hfv]
  simp [readOut, waveValidate, liftR]

/-- Witness for C6: a one-channel float file with four data bytes and no
fact chunk is rejected with `MissingFactChunk` at its total length. -/
theorem c6_float_without_fact_witness :
    WaveFile.read (fmtDataWave 3 1 0 0 4 32 (some 0) [1, 2, 3, 4] 0) =
      .err ⟨.MissingFactChunk, (fmtDataWave 3 1 0 0 4 32 (some 0) [1, 2, 3, 4] 0).length⟩ :=
  c6_float_without_fact (by norm_num) (by norm_num) (by norm_num) (by norm_num)
    (by norm_num) (by norm_num) (by decide) (by norm_num) (by norm_num) (by norm_num)

/-- C8 counterexample: two float files of declared `fmt ` size 18 that
are identical except for the extension field's value decode differently
— value 0 decodes to a `WaveFile`, value 1 is a parse failure — so the
extension value is not "unused beyond presence/absence". -/
theorem c8_counterexample :
    WaveFile.read (orderedWave 3 1 0 0 4 32 (some 0) [0, 0, 0, 0] 0 1 .fdk) =
      .ok ⟨.FloatingPoint, 1, 0, 4, [0, 0, 0, 0]⟩ ∧
    WaveFile.read (orderedWave 3 1 0 0 4 32 (some 1) [0, 0, 0, 0] 0 1 .fdk) =
      .err ⟨.Nom .Tag, 12⟩ := by decide

/-- C8 amended: for a float `fmt ` chunk, (1) when the extension-size
field is absent (declared size 16) the chunk is rejected with
`MissingFormatChunkExtensionSize` — surfaced by `read` when the `data`
chunk precedes the `fmt ` chunk, at the fmt chunk's format-field offset;
(2) a declared-size-18 chunk parses exactly when the extension field's
two bytes are zero: value 0 parses, and any nonzero value makes the
format-chunk parser fail with an end-of-input error at the extension
field's offset (the extension is parsed as a tag of two zero bytes and
`all_consuming` rejects the leftover). -/
theorem c8_extension_field_semantics {ch rate br blk bits : Nat} {d : List Nat} {p : Nat}
    (hch : ch < 65536) (hrate : rate < 4294967296) (hbr : br < 4294967296)
    (hblk : blk < 65536) (hbits : bits < 65536)
    (hdb : d.length + 100 < 4294967296)
    (h1 : wrap32 (rate * blk) = br) (h2 : bits / 8 ≠ 0) (h3 : ch = blk / (bits / 8))
    (h4 : ch ≠ 0) (v : Nat) (r : List Nat) (i : Nat) :
    (WaveFile.read (dataFmtWave 3 ch rate br blk bits none d p) =
       .err ⟨.MissingFormatChunkExtensionSize, 12 + (mkDataP d p).length + 8⟩) ∧
    (format_chunk ⟨mkFmt 3 ch rate br blk bits (some 0) ++ r, i⟩ =
       .ok ⟨r, i + 26⟩ ⟨.FloatingPoint, ch, rate, blk, bits⟩) ∧
    (v ≠ 0 → v < 65536 →
       format_chunk ⟨mkFmt 3 ch rate br blk bits (some v) ++ r, i⟩ =
         .err ⟨.Nom .Eof, i + 24⟩) := by
  refine ⟨?_, ?_, ?_⟩
  · have hext : ExtBound (none : Option Nat) := by
      intro u hu
      cases hu
    have hfv : fvOf 3 ch rate br blk bits none (12 + (mkDataP d p).length) =
        .err ⟨.MissingFormatChunkExtensionSize, 12 + (mkDataP d p).length + 8⟩ := by
      simp [fvOf, formatValidate, rawAt, rdiv, h1, h2, ← h3, h4]
    rw [read_dataFmt (by norm_num) hch hrate hbr hblk hbits hext hdb, hfv]
    simp [readOut]
  · rw [format_chunk_mk18 (by norm_num) hch hrate hbr hblk hbits (by norm_num) r i]
    rw [if_pos rfl]
    have hok : formatValidate (rawAt 3 ch rate br blk bits true i) =
        .ok ⟨.FloatingPoint, ch, rate, blk, bits⟩ :=
      formatValidate_rawAt_ok_iff.mpr ⟨h1, h2, h3, h4, Or.inr ⟨rfl, rfl, rfl⟩⟩
    rw [hok]
    simp [liftP]
  · intro hv hv2
    rw [format_chunk_mk18 (by norm_num) hch hrate hbr hblk hbits hv2 r i, if_neg hv]

/-- Witness for C8's amended statement at a concrete one-channel float
chunk. -/
theorem c8_extension_field_semantics_witness :
    WaveFile.read (dataFmtWave 3 1 0 0 4 32 none [1, 2, 3, 4] 0) =
      .err ⟨.MissingFormatChunkExtensionSize, 12 + (mkDataP [1, 2, 3, 4] 0).length + 8⟩ ∧
    format_chunk ⟨mkFmt 3 1 0 0 4 32 (some 0) ++ [7], 3⟩ =
      .ok ⟨[7], 3 + 26⟩ ⟨.FloatingPoint, 1, 0, 4, 32⟩ ∧
    format_chunk ⟨mkFmt 3 1 0 0 4 32 (some 2) ++ [7], 3⟩ = .err ⟨.Nom .Eof, 3 + 24⟩ :=
  ⟨(@c8_extension_field_semantics 1 0 0 4 32 [1, 2, 3, 4] 0 (by norm_num) (by norm_num)
      (by norm_num) (by norm_num) (by norm_num) (by norm_num) (by decide) (by norm_num)
      (by norm_num) (by norm_num) 2 [7] 3).1,
   (@c8_extension_field_semantics 1 0 0 4 32 [1, 2, 3, 4] 0 (by norm_num) (by norm_num)
      (by norm_num) (by norm_num) (by norm_num) (by norm_num) (by decide) (by norm_num)
      (by norm_num) (by norm_num) 2 [7] 3).2.1,
   (@c8_extension_field_semantics 1 0 0 4 32 [1, 2, 3, 4] 0 (by norm_num) (by norm_num)
      (by norm_num) (by norm_num) (by norm_num) (by norm_num) (by decide) (by norm_num)
      (by norm_num) (by norm_num) 2 [7] 3).2.2 (by norm_num) (by norm_num)⟩

/-- C9: in a file containing a `fact` chunk (canonical order `fmt `,
`fact`, `data`, with an internally consistent `fmt ` chunk), the fact
check compares the declared sample count with
`data_length / (bits_per_sample / 8)` and reports
`FactChunkLengthMismatch` at the fact value's offset when it fails; only
when it passes is the second, independent check
`data_length = block_align * sample_count / channel_count` performed,
reporting `InvalidDataSize` at the data payload's offset.  The second
check is not subsumed by the first: the witness exercises an input that
passes the first and fails the second. -/
theorem c9_fact_chunk_checks {ft ch rate br blk bits : Nat} {ext : Option Nat}
    {d : List Nat} {p s : Nat}
    (hch : ch < 65536) (hrate : rate < 4294967296) (hbr : br < 4294967296)
    (hblk : blk < 65536) (hbits : bits < 65536)
    (hdisj : (ft = 1 ∧ ext = none) ∨ (ft = 3 ∧ ext = some 0))
    (hs : s < 4294967296) (hdb : d.length + 100 < 4294967296)
    (h1 : wrap32 (rate * blk) = br) (h2 : bits / 8 ≠ 0) (h3 : ch = blk / (bits / 8))
    (h4 : ch ≠ 0) :
    (d.length / (bits / 8) ≠ s →
       WaveFile.read (orderedWave ft ch rate br blk bits ext d p s .fkd) =
         .err ⟨.FactChunkLengthMismatch,
           12 + (mkFmt ft ch rate br blk bits ext).length + 8⟩) ∧
    (d.length / (bits / 8) = s → d.length ≠ blk * s / ch →
       WaveFile.read (orderedWave ft ch rate br blk bits ext d p s .fkd) =
         .err ⟨.InvalidDataSize,
           12 + (mkFmt ft ch rate br blk bits ext).length + (mkFact s).length + 8⟩) := by
  have hft : ft < 65536 := by
    rcases hdisj with ⟨h, _⟩ | ⟨h, _⟩ <;> subst h <;> norm_num
  have hext : ExtBound ext := by
    rcases hdisj with ⟨_, h⟩ | ⟨_, h⟩ <;> subst h
    · intro u hu
      cases hu
    · intro u hu
      cases hu
      norm_num
  have hfv : fvOf ft ch rate br blk bits ext 12 =
      .ok ⟨if ft = 3 then .FloatingPoint else .PulseCodeModulation, ch, rate, blk, bits⟩ := by
    rcases hdisj with ⟨hf, he⟩ | ⟨hf, he⟩ <;> subst hf <;> subst he
    · simp only [fvOf]
      exact formatValidate_rawAt_ok_iff.mpr ⟨h1, h2, h3, h4, Or.inl ⟨rfl, by norm_num⟩⟩
    · simp only [fvOf, if_pos rfl]
      exact formatValidate_rawAt_ok_iff.mpr ⟨h1, h2, h3, h4, Or.inr ⟨rfl, rfl, by norm_num⟩⟩
  constructor
  · intro hne
    rw [read_ordered_fkd hft hch hrate hbr hblk hbits hext hs hdb, hfv]
    simp [readOut, liftR, waveValidate, rdiv, h2, hne]
  · intro heq hne2
    rw [read_ordered_fkd hft hch hrate hbr hblk hbits hext hs hdb, hfv]
    simp [readOut, liftR, waveValidate, rdiv, h2, heq, h4, hne2]

/-- Witness for C9: with block align 5, 16 bits per sample, 2 channels
and 4 data bytes, a declared count of 3 fails the first check at offset
44; a declared count of 2 passes the first check and fails the second
(`4 ≠ 5 * 2 / 2`), giving `InvalidDataSize` at offset 56. -/
theorem c9_fact_chunk_checks_witness :
    WaveFile.read (orderedWave 1 2 0 0 5 16 none [9, 9, 9, 9] 0 3 .fkd) =
      .err ⟨.FactChunkLengthMismatch, 12 + (mkFmt 1 2 0 0 5 16 none).length + 8⟩ ∧
    WaveFile.read (orderedWave 1 2 0 0 5 16 none [9, 9, 9, 9] 0 2 .fkd) =
      .err ⟨.InvalidDataSize,
        12 + (mkFmt 1 2 0 0 5 16 none).length + (mkFact 2).length + 8⟩ :=
  ⟨(@c9_fact_chunk_checks 1 2 0 0 5 16 none [9, 9, 9, 9] 0 3 (by norm_num) (by norm_num)
      (by norm_num) (by norm_num) (by norm_num) (Or.inl ⟨rfl, rfl⟩) (by norm_num)
      (by norm_num) (by decide) (by norm_num) (by norm_num) (by norm_num)).1 (by norm_num),
   (@c9_fact_chunk_checks 1 2 0 0 5 16 none [9, 9, 9, 9] 0 2 (by norm_num) (by norm_num)
      (by norm_num) (by norm_num) (by norm_num) (Or.inl ⟨rfl, rfl⟩) (by norm_num)
      (by norm_num) (by decide) (by norm_num) (by norm_num) (by norm_num)).2 (by norm_num)
      (by norm_num)⟩

deriving instance DecidableEq for Except

/-- Outcome of composing `from_samples`, `write` into a buffer, and
`read` back. -/
inductive RoundTripResult where
  | ok (w : WaveFile)
  | readErr (e : ReadError)
  | fromSamplesErr (e : FromSamplesError)
  | writeErr
  | panic
deriving DecidableEq, Repr

/-- `read ∘ write ∘ from_samples`, the composition the round-trip
property quantifies over. -/
def roundTrip {α : Type} (bps : Nat) (format : Format) (conv : α → List Nat)
    (channels : List (List α)) (sample_rate : Nat) : RoundTripResult :=
  match WaveFile.from_samples bps format conv channels sample_rate with
  | .error e => .fromSamplesErr e
  | .ok wv =>
      match wv.write with
      | .dataTooLong => .writeErr
      | .panic => .panic
      | .ok bs =>
          match WaveFile.read bs with
          | .ok w => .ok w
          | .err e => .readErr e
          | .panic => .panic

/-- C1: the round trip fails for every channel count above one, because
`write` stores `bytes_per_sample` in the block-align field instead of
`channels * bytes_per_sample` (wavefile.rs line 203), so `read` rejects
the writer's own two-channel output.  Here the sample kind is i16
(`bps = 2`, PCM) and the conversion of the sample `0.0` is the two zero
bytes; the encoder works (first conjunct), the mono round trip works
(second conjunct), but the two-channel round trip is rejected — the
`fmt ` chunk fails its byte-rate check, and the permutation combinator
surfaces that as a tag error at offset 12 (third conjunct). -/
theorem c1_roundtrip_two_channels_fails :
    WaveFile.from_samples 2 .PulseCodeModulation (fun _ : Unit => [0, 0]) [[()], [()]] 1 =
      .ok ⟨.PulseCodeModulation, 2, 1, 2, [0, 0, 0, 0]⟩ ∧
    roundTrip 2 .PulseCodeModulation (fun _ : Unit => [0, 0]) [[()]] 1 =
      .ok ⟨.PulseCodeModulation, 1, 1, 2, [0, 0]⟩ ∧
    roundTrip 2 .PulseCodeModulation (fun _ : Unit => [0, 0]) [[()], [()]] 1 =
      .readErr ⟨.Nom .Tag, 12⟩ := by decide

theorem from_samples_bad_channel_count {α : Type} (bps : Nat) (format : Format)
    (conv : α → List Nat) (channels : List (List α)) (rate : Nat)
    (h : channels.length > 65535 ∨ channels.length = 0) :
    WaveFile.from_samples bps format conv channels rate = .error .InequalChannelLength := by
  have h2 : (channels.map (fun ch => ch.map conv)).length > 65535 ∨
      (channels.map (fun ch => ch.map conv)).length = 0 := by
    rw [List.length_map]
    exact h
  simp only [WaveFile.from_samples, if_pos h2]

/-- C2: `from_samples` maps a channel count of zero, and a channel count
of 65536, to `InequalChannelLength` (wavefile.rs line 150), not to the
`TooManyChannels` variant its own doc comment promises for these
cases. -/
theorem c2_channel_count_error_is_inequal_channel_length :
    WaveFile.from_samples 1 .PulseCodeModulation (fun _ : Unit => [0]) [] 8000 =
      .error .InequalChannelLength ∧
    WaveFile.from_samples 1 .PulseCodeModulation (fun _ : Unit => [0])
      (List.replicate 65536 []) 8000 = .error .InequalChannelLength := by
  constructor
  · decide
  · refine from_samples_bad_channel_count _ _ _ _ _ (Or.inl ?_)
    rw [List.length_replicate]
    norm_num

/-- C3: `read` panics (division by zero) on a 36-byte input whose `fmt `
chunk declares zero for every field: the byte-rate check passes
(`0 * 0 = 0`), and the channel-count check then divides by
`bits_per_sample / 8 = 0` (wavefile.rs line 275), so `read` does not
return `Ok` or `Err` for every input. -/
theorem c3_read_panics_on_small_bits_per_sample :
    WaveFile.read (riffFile (mkFmt 1 0 0 0 0 0 none)) = .panic := by decide

/-- C10 counterexample: a float `WaveFile` with `bytes_per_sample = 0`
satisfies every hypothesis of the claim (the three size bounds hold, as
the first conjunct records) yet `write` panics on the division
`data.len() / bytes_per_sample` for the fact chunk instead of returning
`Ok`. -/
theorem c10_counterexample :
    (50 + ([] : List Nat).length < 4294967296 ∧
     0 * 1 * 0 < 4294967296 ∧ 0 * 8 < 65536) ∧
    WaveFile.write ⟨.FloatingPoint, 1, 0, 0, []⟩ = .panic := by decide

/-- Everything `write` emits before the data bytes. -/
def writeHeader (w : WaveFile) : List Nat :=
  [82, 73, 70, 70] ++
  le32 ((if w.format = Format.FloatingPoint then 50 else 36) + w.data.length) ++
  [87, 65, 86, 69, 102, 109, 116, 32] ++
  le32 (if w.format = Format.FloatingPoint then 18 else 16) ++
  le16 w.format.tagValue ++
  le16 w.channels ++
  le32 w.sample_rate ++
  le32 (wrap32 (w.sample_rate * w.channels * w.bytes_per_sample)) ++
  le16 w.bytes_per_sample ++
  le16 (wrap16 (w.bytes_per_sample * 8)) ++
  (if w.format = Format.FloatingPoint then
    le16 0 ++ [102, 97, 99, 116] ++ le32 4 ++ le32 (w.data.length / w.bytes_per_sample)
  else []) ++
  [100, 97, 116, 97] ++ le32 w.data.length

/-- C10 amended: for every `WaveFile` within the Rust types
(`channels` a nonzero `u16`, `bytes_per_sample` a `u16`) whose sizes fit
(`50 + data.len() < 2^32`, byte rate and bits-per-sample products in
range) and — the amendment forced by the counterexample — whose
`bytes_per_sample` is nonzero when the format is float, `write` succeeds
and emits exactly its header followed by the data bytes, with a header
of 58 bytes (float) or 44 bytes (PCM) whose RIFF size field holds
`50 + data.len()` (float) or `36 + data.len()` (PCM); in particular the
output ends with the data bytes themselves, so no pad byte is ever
appended after an odd-length data chunk. -/
theorem c10_write_layout (w : WaveFile)
    (hch1 : 1 ≤ w.channels) (hch : w.channels < 65536) (hbps : w.bytes_per_sample < 65536)
    (hlen : 50 + w.data.length < 4294967296)
    (hbrate : w.sample_rate * w.channels * w.bytes_per_sample < 4294967296)
    (hbits : w.bytes_per_sample * 8 < 65536)
    (hbz : w.format = Format.FloatingPoint → w.bytes_per_sample ≠ 0) :
    w.write = .ok (writeHeader w ++ w.data) ∧
    (writeHeader w).length = (if w.format = Format.FloatingPoint then 58 else 44) ∧
    ((writeHeader w).drop 4).take 4 =
      le32 ((if w.format = Format.FloatingPoint then 50 else 36) + w.data.length) := by
  have hdl : ¬(w.data.length ≥ 4294967296) := by omega
  by_cases hf : w.format = Format.FloatingPoint
  · have hb0 := hbz hf
    have hc1 : ¬(50 + w.data.length ≥ 4294967296) := by omega
    have hcnt : ¬(w.data.length / w.bytes_per_sample ≥ 4294967296) := by
      have h := Nat.div_le_self w.data.length w.bytes_per_sample
      omega
    refine ⟨?_, ?_, ?_⟩
    · simp [WaveFile.write, writeHeader, hf, hc1, hcnt, hdl, hb0, List.append_assoc]
    · simp [writeHeader, hf, le16, le32]
    · have ht : ∀ R : List Nat, (le32 (50 + w.data.length) ++ R).take 4 =
          le32 (50 + w.data.length) := fun R => List.take_left' (le32_length _)
      simp [writeHeader, hf, List.append_assoc, ht]
  · have hc1 : ¬(36 + w.data.length ≥ 4294967296) := by omega
    refine ⟨?_, ?_, ?_⟩
    · simp [WaveFile.write, writeHeader, hf, hc1, hdl, List.append_assoc]
    · simp [writeHeader, hf, le16, le32]
    · have ht : ∀ R : List Nat, (le32 (36 + w.data.length) ++ R).take 4 =
          le32 (36 + w.data.length) := fun R => List.take_left' (le32_length _)
      simp [writeHeader, hf, List.append_assoc, ht]

/-- Witness for C10 at a concrete float file with eight data bytes: the
output is the 58-byte header followed by the data, and the RIFF size
field holds 58. -/
theorem c10_write_layout_witness :
    WaveFile.write ⟨.FloatingPoint, 1, 2, 4, [1, 2, 3, 4, 5, 6, 7, 8]⟩ =
      .ok (writeHeader ⟨.FloatingPoint, 1, 2, 4, [1, 2, 3, 4, 5, 6, 7, 8]⟩ ++
        [1, 2, 3, 4, 5, 6, 7, 8]) ∧
    (writeHeader ⟨.FloatingPoint, 1, 2, 4, [1, 2, 3, 4, 5, 6, 7, 8]⟩).length = 58 ∧
    ((writeHeader ⟨.FloatingPoint, 1, 2, 4, [1, 2, 3, 4, 5, 6, 7, 8]⟩).drop 4).take 4 =
      le32 58 := by
  have h := c10_write_layout ⟨.FloatingPoint, 1, 2, 4, [1, 2, 3, 4, 5, 6, 7, 8]⟩
    (by norm_num) (by norm_num) (by norm_num) (by norm_num) (by norm_num) (by norm_num)
    (fun _ => by norm_num)
  simpa using h
